import Mathlib

/-
  Verification of the `haconfig` configuration binder (src/haconfig/config.go).

  The Go code is embedded shallowly:
  * the reflective struct walk becomes a walk over an explicit schema tree
    (`Sch` / `FieldList`) paired with a value tree (`Val` / `ValList`);
  * the process environment is a total function `String → String` where the
    empty string stands for "unset", exactly as `os.Getenv` reports it;
  * the YAML file system and the third-party YAML parser are oracles
    (`ReadResult` and an `unmarshal` function parameter): only their
    control-flow handling in `Load`/`loadFromYAML` is code of this repo;
  * fallible operations return `Except` with structured errors mirroring the
    `fmt.Errorf` wrapping chains of the source;
  * machine integers are `Int`/`Nat` with explicit truncation modulo 2^w,
    mirroring Go's conversion semantics in `reflect.Value.SetInt`/`SetUint`.

  Modelled universe of leaf kinds: string, bool, signed/unsigned integers of
  any width, slices, nested structs and pointers to structs.  The
  `time.Time` / `time.Duration` / float leaf kinds of the source are outside
  the modelled universe (their parsing is delegated to the Go standard
  library); no claim below depends on them.
-/

namespace Haconfig

/-! ASCII character and string helpers (the regexes in the source use the
    ASCII classes `[a-z0-9]`, `[A-Z]`, `[A-Z][a-z]`). -/

def isLowerA (c : Char) : Bool := decide (97 ≤ c.toNat) && decide (c.toNat ≤ 122)

def isUpperA (c : Char) : Bool := decide (65 ≤ c.toNat) && decide (c.toNat ≤ 90)

def isDigitA (c : Char) : Bool := decide (48 ≤ c.toNat) && decide (c.toNat ≤ 57)

def upChar (c : Char) : Char := if isLowerA c then Char.ofNat (c.toNat - 32) else c

def downChar (c : Char) : Char := if isUpperA c then Char.ofNat (c.toNat + 32) else c

/-- `strings.ToUpper`, restricted to ASCII letters. -/
def toUpperStr (s : String) : String := ⟨s.data.map upChar⟩

/-- `strings.ToLower`, restricted to ASCII letters. -/
def toLowerStr (s : String) : String := ⟨s.data.map downChar⟩

def isSpaceA (c : Char) : Bool :=
  c == ' ' || c == '\t' || c == '\n' || c == '\x0b' || c == '\x0c' || c == '\r'

/-- `strings.TrimSpace` (ASCII whitespace). -/
def trimSpace (s : String) : String :=
  ⟨((s.data.dropWhile isSpaceA).reverse.dropWhile isSpaceA).reverse⟩

def splitCommaAux : List Char → List (List Char)
  | [] => [[]]
  | c :: rest =>
    if c = ',' then [] :: splitCommaAux rest
    else
      match splitCommaAux rest with
      | p :: ps => (c :: p) :: ps
      | [] => [[c]]

/-- `strings.Split(s, ",")`: n commas give n+1 parts; `Split("", ",") = [""]`. -/
def splitComma (s : String) : List String := (splitCommaAux s.data).map (fun l => ⟨l⟩)

/-! The two regex replacement passes of `toSnakeCase`.

    Pass 1, `([a-z0-9])([A-Z])` → `${1}_${2}`: every match is exactly two
    characters, and after a replacement the scan resumes at the uppercase
    character, which can never begin a new match (it is not in `[a-z0-9]`).
    Global leftmost non-overlapping replacement is therefore equivalent to the
    sliding two-character window below.

    Pass 2, `([A-Z]+)([A-Z][a-z])` → `${1}_${2}`: a match spans a maximal
    uppercase run followed by a lowercase character, and the replacement
    inserts `_` before the last uppercase of the run, i.e. between positions
    `i` and `i+1` exactly when `s[i]` and `s[i+1]` are uppercase and `s[i+2]`
    is lowercase.  Matches cannot overlap a previous insertion point, so the
    sliding three-character window below is equivalent. -/

def pass1 : List Char → List Char
  | a :: b :: rest =>
    if (isLowerA a || isDigitA a) && isUpperA b then a :: '_' :: pass1 (b :: rest)
    else a :: pass1 (b :: rest)
  | l => l

def pass2 : List Char → List Char
  | a :: b :: c :: rest =>
    if isUpperA a && isUpperA b && isLowerA c then a :: '_' :: pass2 (b :: c :: rest)
    else a :: pass2 (b :: c :: rest)
  | l => l

/-- `Config.toSnakeCase`: CamelCase to snake_case using the two regex passes. -/
def toSnakeCase (str : String) : String :=
  if str = "" then "" else toLowerStr ⟨pass2 (pass1 str.data)⟩

/-! The binder configuration (struct `Config` of the source).  The env-name
    mapping is an association list (Go map with distinct keys). -/

structure Config : Type where
  envPfx : String
  yamlFile : String
  envMapping : List (String × String)

def lookupMap : List (String × String) → String → Option String
  | [], _ => none
  | (k, w) :: rest, n => if k = n then some w else lookupMap rest n

/-- `Config.getEnvName`: snake-case the field name, prepend the ancestor
    prefix, prepend the configured env prefix, upper-case everything. -/
def getEnvName (c : Config) (fieldName pfx : String) : String :=
  let e1 := toSnakeCase fieldName
  let e2 := if pfx ≠ "" then pfx ++ "_" ++ e1 else e1
  let e3 := if c.envPfx ≠ "" then c.envPfx ++ "_" ++ e2 else e2
  toUpperStr e3

/-- `Config.buildPrefix` (named `buildPfx` here). -/
def buildPfx (currentPfx fieldName : String) : String :=
  let sn := toSnakeCase fieldName
  if currentPfx = "" then sn else currentPfx ++ "_" ++ sn

/-- The derived-name-then-custom-mapping pattern used verbatim both in
    `processStruct` and in `hasAnyEnvVar`: compute `getEnvName`, then replace
    it by the custom mapping entry keyed by the bare field name if present. -/
def envNameFor (c : Config) (fieldName pfx : String) : String :=
  match lookupMap c.envMapping fieldName with
  | some m => m
  | none => getEnvName c fieldName pfx

/-! Schemas: the static shape of a target record.  A `FieldList` carries, per
    field in declaration order, its declared Go name, its `required:"true"`
    tag, and its type. -/

inductive Kind : Type where
  | str : Kind
  | bool : Kind
  | int : Nat → Kind
  | uint : Nat → Kind
deriving DecidableEq

mutual

inductive Sch : Type where
  | leaf : Kind → Sch
  | slice : Sch → Sch
  | strct : FieldList → Sch
  | ptrStrct : FieldList → Sch

inductive FieldList : Type where
  | fnil : FieldList
  | fcons : String → Bool → Sch → FieldList → FieldList

end

mutual

inductive Val : Type where
  | vStr : String → Val
  | vBool : Bool → Val
  | vInt : Nat → Int → Val
  | vUint : Nat → Nat → Val
  | vSliceNil : Val
  | vSlice : ValList → Val
  | vStruct : ValList → Val
  | vNil : Val
  | vPtr : Val → Val

inductive ValList : Type where
  | vnil : ValList
  | vcons : Val → ValList → ValList

end

/-- The process environment as read by `os.Getenv`: unset variables and
    variables set to the empty string are both reported as `""`. -/
abbrev Env : Type := String → String

mutual

/-- The zero `reflect` value of a schema (Go type defaults). -/
def zeroVal : Sch → Val
  | .leaf .str => .vStr ""
  | .leaf .bool => .vBool false
  | .leaf (.int w) => .vInt w 0
  | .leaf (.uint w) => .vUint w 0
  | .slice _ => .vSliceNil
  | .strct gs => .vStruct (zeroVals gs)
  | .ptrStrct _ => .vNil

def zeroVals : FieldList → ValList
  | .fnil => .vnil
  | .fcons _ _ sch fs => .vcons (zeroVal sch) (zeroVals fs)

end

mutual

/-- The value belongs to the schema. -/
def hasTy : Sch → Val → Bool
  | .leaf .str, .vStr _ => true
  | .leaf .bool, .vBool _ => true
  | .leaf (.int w), .vInt w' _ => decide (w = w')
  | .leaf (.uint w), .vUint w' _ => decide (w = w')
  | .slice _, .vSliceNil => true
  | .slice esch, .vSlice xs => hasTyList esch xs
  | .strct gs, .vStruct ws => hasTyFields gs ws
  | .ptrStrct _, .vNil => true
  | .ptrStrct gs, .vPtr (.vStruct ws) => hasTyFields gs ws
  | _, _ => false

def hasTyList : Sch → ValList → Bool
  | _, .vnil => true
  | esch, .vcons v vs => hasTy esch v && hasTyList esch vs

def hasTyFields : FieldList → ValList → Bool
  | .fnil, .vnil => true
  | .fcons _ _ sch fs, .vcons v vs => hasTy sch v && hasTyFields fs vs
  | _, _ => false

end

/-! String parsers used in `setFieldValue`. -/

def digitsToNat (l : List Char) : Nat :=
  l.foldl (fun acc c => acc * 10 + (c.toNat - 48)) 0

def allDigits (l : List Char) : Bool := l.all isDigitA

/-- `strconv.ParseBool`. -/
def parseBool (s : String) : Option Bool :=
  if s = "1" || s = "t" || s = "T" || s = "TRUE" || s = "true" || s = "True" then some true
  else if s = "0" || s = "f" || s = "F" || s = "FALSE" || s = "false" || s = "False" then
    some false
  else none

/-- `strconv.ParseInt(s, 10, 64)`: optional sign, decimal digits, 64-bit
    range check (out-of-range input is an error, as the caller treats it). -/
def parseInt64 (s : String) : Option Int :=
  match s.data with
  | [] => none
  | '+' :: ds =>
    if allDigits ds && !ds.isEmpty && decide (digitsToNat ds ≤ 2 ^ 63 - 1) then
      some (digitsToNat ds)
    else none
  | '-' :: ds =>
    if allDigits ds && !ds.isEmpty && decide (digitsToNat ds ≤ 2 ^ 63) then
      some (-(digitsToNat ds : Int))
    else none
  | ds =>
    if allDigits ds && decide (digitsToNat ds ≤ 2 ^ 63 - 1) then some (digitsToNat ds)
    else none

/-- `strconv.ParseUint(s, 10, 64)`: no sign permitted. -/
def parseUint64 (s : String) : Option Nat :=
  match s.data with
  | [] => none
  | ds =>
    if allDigits ds && decide (digitsToNat ds ≤ 2 ^ 64 - 1) then some (digitsToNat ds)
    else none

/-- Go's conversion of an `int64` to a w-bit signed integer (two's-complement
    truncation), as performed by `reflect.Value.SetInt` on narrow fields. -/
def wrapInt (w : Nat) (n : Int) : Int :=
  (n + 2 ^ (w - 1)) % (2 ^ w : Int) - 2 ^ (w - 1)

/-! Structured errors mirroring the `fmt.Errorf` chains of the source. -/

inductive CoerceErr : Type where
  | invalidBool : String → CoerceErr
  | invalidInt : String → CoerceErr
  | invalidUint : String → CoerceErr
  | sliceElem : Nat → CoerceErr → CoerceErr
deriving DecidableEq

inductive EnvErr : Type where
  | fieldErr : String → CoerceErr → EnvErr
deriving DecidableEq

inductive YamlErr : Type where
  | readFailed : String → YamlErr
  | unmarshalFailed : String → YamlErr
deriving DecidableEq

inductive LoadErr : Type where
  | yamlWrap : YamlErr → LoadErr
  | envWrap : EnvErr → LoadErr
deriving DecidableEq

inductive VErr : Type where
  | requiredField : String → VErr
deriving DecidableEq

def CoerceErr.msg : CoerceErr → String
  | .invalidBool s => "invalid bool value: " ++ s
  | .invalidInt s => "invalid int value: " ++ s
  | .invalidUint s => "invalid uint value: " ++ s
  | .sliceElem i e => "invalid slice element at index " ++ toString i ++ ": " ++ e.msg

def EnvErr.msg : EnvErr → String
  | .fieldErr n e => "failed to set field " ++ n ++ ": " ++ e.msg

def YamlErr.msg : YamlErr → String
  | .readFailed m => "failed to read YAML file: " ++ m
  | .unmarshalFailed m => "failed to unmarshal YAML: " ++ m

def LoadErr.msg : LoadErr → String
  | .yamlWrap e => "failed to load YAML: " ++ e.msg
  | .envWrap e => "failed to load from env: " ++ e.msg

/-- The loop of `Config.setSliceValue`, abstracted over the element coercion
    `coe` (in the source, the recursive `c.setFieldValue(elem, part)` call on
    the zero-valued slice element): per part, trim, coerce, and index-wrap a
    failing element's error. -/
def setSliceGo (coe : String → Except CoerceErr Val) :
    List String → Nat → Except CoerceErr ValList
  | [], _ => .ok .vnil
  | part :: rest, i =>
    match coe (trimSpace part) with
    | .error e => .error (.sliceElem i e)
    | .ok v =>
      match setSliceGo coe rest (i + 1) with
      | .error e => .error e
      | .ok xs => .ok (.vcons v xs)

/-- `Config.setFieldValue`: coerce a string to the field's kind.  The
    `strct` case mirrors the source switch: a non-`time.Time` struct falls
    through the `reflect.Struct` case doing nothing and succeeds.  The
    `ptrStrct` case mirrors `reflect.Ptr`: allocate a zero pointee if nil,
    then recurse on the pointee, which is a struct and hence a no-op. -/
def setFieldValue : Sch → Val → String → Except CoerceErr Val
  | .leaf .str, _, value => .ok (.vStr value)
  | .leaf .bool, _, value =>
    match parseBool value with
    | none => .error (.invalidBool value)
    | some b => .ok (.vBool b)
  | .leaf (.int w), _, value =>
    match parseInt64 value with
    | none => .error (.invalidInt value)
    | some n => .ok (.vInt w (wrapInt w n))
  | .leaf (.uint w), _, value =>
    match parseUint64 value with
    | none => .error (.invalidUint value)
    | some n => .ok (.vUint w (n % 2 ^ w))
  | .slice esch, _, value =>
    match setSliceGo (fun part => setFieldValue esch (zeroVal esch) part)
        (splitComma value) 0 with
    | .error e => .error e
    | .ok xs => .ok (.vSlice xs)
  | .ptrStrct gs, .vNil, _ => .ok (.vPtr (.vStruct (zeroVals gs)))
  | .ptrStrct _, w, _ => .ok w
  | .strct _, w, _ => .ok w

/-- `Config.setSliceValue`: split on commas and coerce every part. -/
def setSliceValue (esch : Sch) (value : String) : Except CoerceErr Val :=
  match setSliceGo (fun part => setFieldValue esch (zeroVal esch) part)
      (splitComma value) 0 with
  | .error e => .error e
  | .ok xs => .ok (.vSlice xs)

/-- `Config.setFieldFromEnv`: an empty (i.e. unset) variable leaves the field
    untouched; otherwise coerce. -/
def setFieldFromEnv (env : Env) (sch : Sch) (v : Val) (envName : String) :
    Except CoerceErr Val :=
  if env envName = "" then .ok v
  else setFieldValue sch v (env envName)

mutual

/-- Per-field body of `Config.hasAnyEnvVar`. -/
def hasAnyField (c : Config) (env : Env) (fieldName : String) (sch : Sch) (pfx : String) :
    Bool :=
  match sch with
  | .strct gs => hasAnyEnvVar c env gs (buildPfx pfx fieldName)
  | .ptrStrct gs => hasAnyEnvVar c env gs (buildPfx pfx fieldName)
  | _ => env (envNameFor c fieldName pfx) != ""

/-- `Config.hasAnyEnvVar`: does any (non-empty) environment variable exist
    for any leaf under this struct type and prefix? -/
def hasAnyEnvVar (c : Config) (env : Env) (fs : FieldList) (pfx : String) : Bool :=
  match fs with
  | .fnil => false
  | .fcons n _ sch rest => hasAnyField c env n sch pfx || hasAnyEnvVar c env rest pfx

end

mutual

/-- Per-field body of `Config.processStruct`: nested structs recurse with an
    extended prefix; pointer-to-struct fields are instantiated and recursed
    into only when `hasAnyEnvVar` holds; all other fields are bound from the
    environment, wrapping a failure as "failed to set field". -/
def processField (c : Config) (env : Env) (fieldName : String) (sch : Sch) (v : Val)
    (pfx : String) : Except EnvErr Val :=
  match sch, v with
  | .strct gs, .vStruct ws =>
    match processStruct c env gs ws (buildPfx pfx fieldName) with
    | .error e => .error e
    | .ok ws' => .ok (.vStruct ws')
  | .strct _, w => .ok w
  | .ptrStrct gs, w =>
    let np := buildPfx pfx fieldName
    if hasAnyEnvVar c env gs np then
      match w with
      | .vNil =>
        match processStruct c env gs (zeroVals gs) np with
        | .error e => .error e
        | .ok ws' => .ok (.vPtr (.vStruct ws'))
      | .vPtr (.vStruct ws) =>
        match processStruct c env gs ws np with
        | .error e => .error e
        | .ok ws' => .ok (.vPtr (.vStruct ws'))
      | w' => .ok w'
    else .ok w
  | lsch, w =>
    match setFieldFromEnv env lsch w (envNameFor c fieldName pfx) with
    | .error e => .error (.fieldErr fieldName e)
    | .ok v' => .ok v'

/-- `Config.processStruct`: walk the fields in declaration order, stopping at
    the first error. -/
def processStruct (c : Config) (env : Env) (fs : FieldList) (vs : ValList) (pfx : String) :
    Except EnvErr ValList :=
  match fs, vs with
  | .fnil, rest => .ok rest
  | .fcons _ _ _ _, .vnil => .ok .vnil
  | .fcons n _ sch rest, .vcons v vtail =>
    match processField c env n sch v pfx with
    | .error e => .error e
    | .ok v' =>
      match processStruct c env rest vtail pfx with
      | .error e => .error e
      | .ok vtail' => .ok (.vcons v' vtail')

end

/-! The YAML step.  `os.ReadFile` and `yaml.Unmarshal` are external; the
    oracle `ReadResult` is what `os.ReadFile` reported, and `um` is the
    unmarshaller updating the current value from the document's text. -/

inductive ReadResult : Type where
  | notExist : ReadResult
  | readFailed : String → ReadResult
  | content : String → ReadResult

/-- `Config.loadFromYAML`: a missing file is skipped silently; a read error
    or unmarshal error is wrapped. -/
def loadFromYAML (rd : ReadResult) (um : String → ValList → Except String ValList)
    (vs : ValList) : Except YamlErr ValList :=
  match rd with
  | .notExist => .ok vs
  | .readFailed m => .error (.readFailed m)
  | .content d =>
    match um d vs with
    | .error m => .error (.unmarshalFailed m)
    | .ok vs' => .ok vs'

/-- The YAML half of `Config.Load`: only runs when a YAML file is configured. -/
def yamlStep (c : Config) (rd : ReadResult) (um : String → ValList → Except String ValList)
    (vs : ValList) : Except YamlErr ValList :=
  if c.yamlFile ≠ "" then loadFromYAML rd um vs else .ok vs

/-- `Config.Load`: YAML first (wrapped as "failed to load YAML"), then the
    environment overlay (wrapped as "failed to load from env"). -/
def Load (c : Config) (rd : ReadResult) (um : String → ValList → Except String ValList)
    (env : Env) (fs : FieldList) (vs : ValList) : Except LoadErr ValList :=
  match yamlStep c rd um vs with
  | .error e => .error (.yamlWrap e)
  | .ok v1 =>
    match processStruct c env fs v1 "" with
    | .error e => .error (.envWrap e)
    | .ok v2 => .ok v2

/-- Outcome of `Config.MustLoad`: either a normal return carrying the loaded
    value, or a non-recoverable panic carrying a message. -/
inductive MustLoadResult : Type where
  | normal : ValList → MustLoadResult
  | panicked : String → MustLoadResult

/-- `Config.MustLoad`: load, panicking on any error. -/
def MustLoad (c : Config) (rd : ReadResult) (um : String → ValList → Except String ValList)
    (env : Env) (fs : FieldList) (vs : ValList) : MustLoadResult :=
  match Load c rd um env fs vs with
  | .ok v => .normal v
  | .error e => .panicked ("failed to load configuration: " ++ e.msg)

mutual

/-- Comparability (in the Go `==` sense) of a value's dynamic type, within
    the modelled universe: slice types are uncomparable, a struct type is
    comparable iff all its field types are, pointers and scalars always are.
    On well-typed values this coincides with the schema's comparability
    (`schComparable` below). -/
def valComparable : Val → Bool
  | .vSliceNil => false
  | .vSlice _ => false
  | .vStruct ws => valsComparable ws
  | _ => true

def valsComparable : ValList → Bool
  | .vnil => true
  | .vcons v vs => valComparable v && valsComparable vs

end

mutual

/-- Static comparability of a schema's Go type. -/
def schComparable : Sch → Bool
  | .leaf _ => true
  | .slice _ => false
  | .strct gs => fieldsComparable gs
  | .ptrStrct _ => true

def fieldsComparable : FieldList → Bool
  | .fnil => true
  | .fcons _ _ sch fs => schComparable sch && fieldsComparable fs

end

mutual

/-- Specification-side total zero test: "the value is its type's zero/empty
    value" (for a comparable struct type this is exactly what the source's
    interface comparison computes; `isZeroSpec_iff_zeroVal_aux` below proves
    it equal to equality with `zeroVal` on well-typed values). -/
def isZeroSpec : Val → Bool
  | .vStr s => s == ""
  | .vBool b => !b
  | .vInt _ n => n == 0
  | .vUint _ n => n == 0
  | .vSliceNil => true
  | .vSlice _ => false
  | .vNil => true
  | .vPtr _ => false
  | .vStruct ws => allZero ws

def allZero : ValList → Bool
  | .vnil => true
  | .vcons v vs => isZeroSpec v && allZero vs

end

/-- `Config.isZeroValue`.  The scalar, slice and pointer cases are total; the
    struct case embeds the source's
    `v.Interface() == reflect.Zero(v.Type()).Interface()`, which PANICS at
    runtime when the struct's type is uncomparable (it contains a slice,
    possibly inside a nested struct).  `none` models that panic; on a
    comparable struct type the interface comparison is field-wise equality
    with the zero record. -/
def isZeroValue : Val → Option Bool
  | .vStr s => some (s == "")
  | .vBool b => some (!b)
  | .vInt _ n => some (n == 0)
  | .vUint _ n => some (n == 0)
  | .vSliceNil => some true
  | .vSlice _ => some false
  | .vNil => some true
  | .vPtr _ => some false
  | .vStruct ws => if valsComparable ws then some (allZero ws) else none

/-- `Config.buildFieldPath`: dotted paths for validation errors. -/
def buildFieldPath (pfx fieldName : String) : String :=
  if pfx = "" then fieldName else pfx ++ "." ++ fieldName

/-- Outcome of the validation walk: a normal success return, a normal error
    return, or an unrecovered runtime panic (from comparing an uncomparable
    struct type in `isZeroValue`). -/
inductive VOut : Type where
  | vok : VOut
  | verr : VErr → VOut
  | vpanic : VOut
deriving DecidableEq

mutual

/-- Per-field body of `Config.validateStruct`: the required check precedes
    recursion into nested structs and non-nil struct pointers.  The zero test
    runs only on required fields; when it panics (`isZeroValue` is `none`)
    the panic pre-empts both the error return and the recursion, exactly as
    in the source where the panic is raised while evaluating
    `c.isZeroValue(field)`. -/
def validateField (fieldName : String) (required : Bool) (sch : Sch) (v : Val)
    (pfx : String) : VOut :=
  if required && (isZeroValue v).isNone then .vpanic
  else if required && (isZeroValue v).getD false then
    .verr (.requiredField (buildFieldPath pfx fieldName))
  else
    match sch, v with
    | .strct gs, .vStruct ws => validateStruct gs ws (buildFieldPath pfx fieldName)
    | .ptrStrct gs, .vPtr (.vStruct ws) => validateStruct gs ws (buildFieldPath pfx fieldName)
    | _, _ => .vok

/-- `Config.validateStruct`: first failure (or panic) in declaration order
    wins. -/
def validateStruct (fs : FieldList) (vs : ValList) (pfx : String) : VOut :=
  match fs, vs with
  | .fcons n req sch rest, .vcons v vtail =>
    match validateField n req sch v pfx with
    | .vok => validateStruct rest vtail pfx
    | out => out
  | _, _ => .vok

end

/-- `Config.Validate`. -/
def Validate (_c : Config) (fs : FieldList) (vs : ValList) : VOut :=
  validateStruct fs vs ""

/-- The zero test of a required field of this schema cannot panic. -/
def zeroCheckSafe : Sch → Bool
  | .strct gs => fieldsComparable gs
  | _ => true

mutual

/-- No required field anywhere in the tree has an uncomparable struct type,
    so the validation walk can never panic. -/
def validateSafeField (required : Bool) (sch : Sch) : Bool :=
  (!required || zeroCheckSafe sch) &&
    (match sch with
     | .strct gs => validateSafe gs
     | .ptrStrct gs => validateSafe gs
     | _ => true)

def validateSafe : FieldList → Bool
  | .fnil => true
  | .fcons _ req sch rest => validateSafeField req sch && validateSafe rest

end

/-! Specification-side observers: field lookup by index, leaf paths into a
    record, the environment-variable name a leaf path derives to, and the
    value stored at a path.  A path is the list of field indices from the
    root; it steps implicitly through an allocated struct pointer. -/

def vlen : ValList → Nat
  | .vnil => 0
  | .vcons _ vs => vlen vs + 1

def flen : FieldList → Nat
  | .fnil => 0
  | .fcons _ _ _ fs => flen fs + 1

def nthF : FieldList → Nat → Option (String × Bool × Sch)
  | .fnil, _ => none
  | .fcons n r sch _, 0 => some (n, r, sch)
  | .fcons _ _ _ rest, i + 1 => nthF rest i

def nthV : ValList → Nat → Option Val
  | .vnil, _ => none
  | .vcons v _, 0 => some v
  | .vcons _ rest, i + 1 => nthV rest i

/-- A leaf field in the sense of the walk: anything bound directly from the
    environment (scalars and slices), as opposed to nested records and
    nullable nested records. -/
def isLeafLike : Sch → Bool
  | .leaf _ => true
  | .slice _ => true
  | .strct _ => false
  | .ptrStrct _ => false

/-- The schema a path points at. -/
def pathSch : FieldList → List Nat → Option Sch
  | _, [] => none
  | fs, i :: rest =>
    match nthF fs i with
    | none => none
    | some (_, _, sch) =>
      match rest with
      | [] => some sch
      | _ :: _ =>
        match sch with
        | .strct gs => pathSch gs rest
        | .ptrStrct gs => pathSch gs rest
        | _ => none

/-- The environment-variable name a leaf path derives to: ancestor prefixes
    are chained with `buildPfx`, and the leaf's bare name goes through the
    custom mapping / `getEnvName` combination. -/
def pathEnvName (c : Config) : FieldList → String → List Nat → Option String
  | _, _, [] => none
  | fs, pfx, i :: rest =>
    match nthF fs i with
    | none => none
    | some (n, _, sch) =>
      match rest with
      | [] => if isLeafLike sch then some (envNameFor c n pfx) else none
      | _ :: _ =>
        match sch with
        | .strct gs => pathEnvName c gs (buildPfx pfx n) rest
        | .ptrStrct gs => pathEnvName c gs (buildPfx pfx n) rest
        | _ => none

/-- The value a path points at (none under a nil pointer). -/
def valAt : ValList → List Nat → Option Val
  | _, [] => none
  | vs, i :: rest =>
    match nthV vs i with
    | none => none
    | some v =>
      match rest with
      | [] => some v
      | _ :: _ =>
        match v with
        | .vStruct ws => valAt ws rest
        | .vPtr (.vStruct ws) => valAt ws rest
        | _ => none

mutual

/-- Specification-side: dotted paths of required fields holding their zero
    value, in the declaration-order pre-order traversal that `validateStruct`
    performs (a field's own required check precedes its children; nil
    nullable records are not descended into). -/
def reqZeroField (fieldName : String) (required : Bool) (sch : Sch) (v : Val)
    (pfx : String) : List String :=
  (if required && isZeroSpec v then [buildFieldPath pfx fieldName] else []) ++
    (match sch, v with
     | .strct gs, .vStruct ws => requiredZeroPaths gs ws (buildFieldPath pfx fieldName)
     | .ptrStrct gs, .vPtr (.vStruct ws) =>
       requiredZeroPaths gs ws (buildFieldPath pfx fieldName)
     | _, _ => [])

def requiredZeroPaths (fs : FieldList) (vs : ValList) (pfx : String) : List String :=
  match fs, vs with
  | .fcons n req sch rest, .vcons v vtail =>
    reqZeroField n req sch v pfx ++ requiredZeroPaths rest vtail pfx
  | _, _ => []

end

/-! Concrete records, values and environments used by the claim witnesses
    and counterexamples (shaped after the repo's own test fixtures). -/

def demoEnv1 : Env := fun n => if n = "SERVER_HOST" then "env-host" else ""

def demoServer : FieldList :=
  .fcons "Host" false (.leaf .str) (.fcons "Port" false (.leaf (.int 64)) .fnil)

def demoFs : FieldList := .fcons "Server" false (.strct demoServer) .fnil

/-- A post-YAML value: the YAML document supplied both leaves. -/
def demoVs : ValList :=
  .vcons (.vStruct (.vcons (.vStr "yaml-host") (.vcons (.vInt 64 3000) .vnil))) .vnil

/-- After `Load`: the env overrides Host, YAML's Port survives. -/
def demoVs' : ValList :=
  .vcons (.vStruct (.vcons (.vStr "env-host") (.vcons (.vInt 64 3000) .vnil))) .vnil

def redisInner : FieldList := .fcons "Host" false (.leaf .str) .fnil

def redisFs : FieldList := .fcons "Redis" false (.ptrStrct redisInner) .fnil

/-- A target whose nullable record was already populated (by YAML or by the
    caller) before the environment overlay. -/
def redisVs : ValList := .vcons (.vPtr (.vStruct (.vcons (.vStr "h") .vnil))) .vnil

def redisEnv : Env := fun n => if n = "REDIS_HOST" then "redis-server" else ""

def mapEnv : Env := fun n =>
  if n = "CUSTOM_HOST" then "custom-host"
  else if n = "CUSTOM_PORT" then "9090"
  else ""

def mapServer : FieldList :=
  .fcons "Host" false (.leaf .str)
    (.fcons "Port" false (.leaf (.int 64)) (.fcons "TLS" false (.leaf .bool) .fnil))

def mapFs : FieldList := .fcons "Server" false (.strct mapServer) .fnil

/-- A required field of an uncomparable struct type (it contains a slice),
    shaped after the repo's `FeatureFlags`: validating it panics. -/
def cexFs : FieldList :=
  .fcons "Features" true
    (.strct (.fcons "AllowedIPs" false (.slice (.leaf .str)) .fnil)) .fnil

/-! Structural measures for the mutual types, used for strong induction. -/

mutual

def schSize : Sch → Nat
  | .leaf _ => 1
  | .slice e => schSize e + 1
  | .strct gs => fieldsSize gs + 1
  | .ptrStrct gs => fieldsSize gs + 1

def fieldsSize : FieldList → Nat
  | .fnil => 0
  | .fcons _ _ sch fs => schSize sch + fieldsSize fs + 1

end

mutual

def valSize : Val → Nat
  | .vStr _ => 1
  | .vBool _ => 1
  | .vInt _ _ => 1
  | .vUint _ _ => 1
  | .vSliceNil => 1
  | .vSlice xs => valsSize xs + 1
  | .vStruct ws => valsSize ws + 1
  | .vNil => 1
  | .vPtr v => valSize v + 1

def valsSize : ValList → Nat
  | .vnil => 0
  | .vcons v vs => valSize v + valsSize vs + 1

end

/-! ## Helper lemmas -/

/-- Success of the slice loop: one output element per part, each the
    coercion of its trimmed part. -/
theorem setSliceGo_ok (coe : String → Except CoerceErr Val) :
    ∀ (parts : List String) (i : Nat) (xs : ValList),
      setSliceGo coe parts i = .ok xs →
      vlen xs = parts.length ∧
        ∀ (j : Nat) (part : String), parts.get? j = some part →
          ∃ w, nthV xs j = some w ∧ coe (trimSpace part) = .ok w := by
  intro parts
  induction parts with
  | nil =>
    intro i xs h
    simp only [setSliceGo] at h
    cases h
    exact ⟨rfl, by intro j part hj; simp at hj⟩
  | cons part rest ih =>
    intro i xs h
    simp only [setSliceGo] at h
    cases hc : coe (trimSpace part) with
    | error e => rw [hc] at h; cases h
    | ok v =>
      rw [hc] at h
      cases hr : setSliceGo coe rest (i + 1) with
      | error e => rw [hr] at h; cases h
      | ok ys =>
        rw [hr] at h
        cases h
        obtain ⟨hlen, helem⟩ := ih (i + 1) ys hr
        refine ⟨by simp [vlen, hlen], ?_⟩
        intro j p hj
        cases j with
        | zero =>
          simp only [List.get?] at hj
          cases hj
          exact ⟨v, rfl, hc⟩
        | succ j' =>
          simp only [List.get?] at hj
          exact helem j' p hj

/-- Failure of the slice loop at the first failing part: the error wraps the
    element error and carries that element's index. -/
theorem setSliceGo_error (coe : String → Except CoerceErr Val) :
    ∀ (parts : List String) (i k : Nat) (part : String) (e : CoerceErr),
      parts.get? k = some part →
      coe (trimSpace part) = .error e →
      (∀ (j : Nat) (pj : String), j < k → parts.get? j = some pj →
        ∃ w, coe (trimSpace pj) = .ok w) →
      setSliceGo coe parts i = .error (.sliceElem (i + k) e) := by
  intro parts
  induction parts with
  | nil =>
    intro i k part e hk
    simp at hk
  | cons p rest ih =>
    intro i k part e hk hfail hok
    cases k with
    | zero =>
      simp only [List.get?] at hk
      cases hk
      simp [setSliceGo, hfail]
    | succ k' =>
      simp only [List.get?] at hk
      obtain ⟨w, hw⟩ := hok 0 p (Nat.succ_pos k') rfl
      have h1 : setSliceGo coe rest (i + 1) = .error (.sliceElem (i + 1 + k') e) := by
        refine ih (i + 1) k' part e hk hfail ?_
        intro j pj hj hjp
        exact hok (j + 1) pj (by omega) hjp
      have h2 : i + 1 + k' = i + (k' + 1) := by omega
      simp [setSliceGo, hw, h1, h2]

/-- If some field of `fs` makes its `hasAnyField` check true, then
    `hasAnyEnvVar` over `fs` is true. -/
theorem hasAnyEnvVar_of_nthF (c : Config) (env : Env) :
    ∀ (i : Nat) (fs : FieldList) (n : String) (r : Bool) (sch : Sch) (pfx : String),
      nthF fs i = some (n, r, sch) → hasAnyField c env n sch pfx = true →
      hasAnyEnvVar c env fs pfx = true := by
  intro i
  induction i with
  | zero =>
    intro fs n r sch pfx h hf
    cases fs with
    | fnil => simp [nthF] at h
    | fcons n0 r0 sch0 rest =>
      simp only [nthF, Option.some.injEq, Prod.mk.injEq] at h
      obtain ⟨h1, h2, h3⟩ := h
      subst h1; subst h3
      simp only [hasAnyEnvVar]
      rw [hf]
      simp
  | succ i ih =>
    intro fs n r sch pfx h hf
    cases fs with
    | fnil => simp [nthF] at h
    | fcons n0 r0 sch0 rest =>
      simp only [nthF] at h
      have := ih rest n r sch pfx h hf
      simp only [hasAnyEnvVar]
      rw [this]
      simp

/-- A leaf path whose environment variable is non-empty makes
    `hasAnyEnvVar` true (the two walks derive names identically). -/
theorem hasAnyEnvVar_of_path (c : Config) (env : Env) :
    ∀ (pa : List Nat) (fs : FieldList) (pfx : String) (nm : String),
      pathEnvName c fs pfx pa = some nm → env nm ≠ "" →
      hasAnyEnvVar c env fs pfx = true := by
  intro pa
  induction pa with
  | nil => intro fs pfx nm h; simp [pathEnvName] at h
  | cons i rest ih =>
    intro fs pfx nm h hnm
    cases hn : nthF fs i with
    | none => simp only [pathEnvName] at h; rw [hn] at h; cases h
    | some t =>
      obtain ⟨n, r, sch⟩ := t
      simp only [pathEnvName] at h
      rw [hn] at h
      cases rest with
      | nil =>
        cases sch with
        | leaf k =>
          simp only [isLeafLike, if_pos] at h
          injection h with h
          subst h
          exact hasAnyEnvVar_of_nthF c env i fs n r (.leaf k) pfx hn
            (by simp only [hasAnyField]; exact bne_iff_ne.mpr hnm)
        | slice e =>
          simp only [isLeafLike, if_pos] at h
          injection h with h
          subst h
          exact hasAnyEnvVar_of_nthF c env i fs n r (.slice e) pfx hn
            (by simp only [hasAnyField]; exact bne_iff_ne.mpr hnm)
        | strct gs => simp [isLeafLike] at h
        | ptrStrct gs => simp [isLeafLike] at h
      | cons j rest' =>
        cases sch with
        | leaf k => cases h
        | slice e => cases h
        | strct gs =>
          have := ih gs (buildPfx pfx n) nm h hnm
          exact hasAnyEnvVar_of_nthF c env i fs n r (.strct gs) pfx hn
            (by simp only [hasAnyField]; exact this)
        | ptrStrct gs =>
          have := ih gs (buildPfx pfx n) nm h hnm
          exact hasAnyEnvVar_of_nthF c env i fs n r (.ptrStrct gs) pfx hn
            (by simp only [hasAnyField]; exact this)

/-- Conversely, `hasAnyEnvVar` being true exhibits a leaf path (possibly
    through deeper nested and pointer records) whose derived environment
    variable is set to a non-empty value. -/
theorem hasAnyEnvVar_exists_path_aux (c : Config) (env : Env) :
    ∀ (N : Nat) (fs : FieldList) (pfx : String), fieldsSize fs ≤ N →
      hasAnyEnvVar c env fs pfx = true →
      ∃ pa nm, pathEnvName c fs pfx pa = some nm ∧ env nm ≠ "" := by
  intro N
  induction N with
  | zero =>
    intro fs pfx hsz h
    cases fs with
    | fnil => simp [hasAnyEnvVar] at h
    | fcons n r sch rest =>
      exfalso
      simp only [fieldsSize] at hsz
      omega
  | succ N ih =>
    intro fs pfx hsz h
    cases fs with
    | fnil => simp [hasAnyEnvVar] at h
    | fcons n r sch rest =>
      simp only [hasAnyEnvVar, Bool.or_eq_true] at h
      rcases h with hf | hr
      · cases sch with
        | leaf k =>
          refine ⟨[0], envNameFor c n pfx, rfl, ?_⟩
          simpa only [hasAnyField, bne_iff_ne, ne_eq] using hf
        | slice e =>
          refine ⟨[0], envNameFor c n pfx, rfl, ?_⟩
          simpa only [hasAnyField, bne_iff_ne, ne_eq] using hf
        | strct gs =>
          simp only [hasAnyField] at hf
          have hsz' : fieldsSize gs ≤ N := by
            simp only [fieldsSize, schSize] at hsz; omega
          obtain ⟨pa, nm, hpa, hnm⟩ := ih gs (buildPfx pfx n) hsz' hf
          cases pa with
          | nil => simp [pathEnvName] at hpa
          | cons j pa' => exact ⟨0 :: j :: pa', nm, hpa, hnm⟩
        | ptrStrct gs =>
          simp only [hasAnyField] at hf
          have hsz' : fieldsSize gs ≤ N := by
            simp only [fieldsSize, schSize] at hsz; omega
          obtain ⟨pa, nm, hpa, hnm⟩ := ih gs (buildPfx pfx n) hsz' hf
          cases pa with
          | nil => simp [pathEnvName] at hpa
          | cons j pa' => exact ⟨0 :: j :: pa', nm, hpa, hnm⟩
      · have hsz' : fieldsSize rest ≤ N := by
          simp only [fieldsSize, schSize] at hsz
          cases sch <;> simp only [schSize] at hsz <;> omega
        obtain ⟨pa, nm, hpa, hnm⟩ := ih rest pfx hsz' hr
        cases pa with
        | nil => simp [pathEnvName] at hpa
        | cons i pa' => exact ⟨(i + 1) :: pa', nm, hpa, hnm⟩

/-- `hasAnyEnvVar` holds iff some leaf path under the prefix has a non-empty
    environment variable. -/
theorem hasAnyEnvVar_iff_exists_path (c : Config) (env : Env) (fs : FieldList)
    (pfx : String) :
    hasAnyEnvVar c env fs pfx = true ↔
      ∃ pa nm, pathEnvName c fs pfx pa = some nm ∧ env nm ≠ "" := by
  constructor
  · exact hasAnyEnvVar_exists_path_aux c env (fieldsSize fs) fs pfx le_rfl
  · rintro ⟨pa, nm, hpa, hnm⟩
    exact hasAnyEnvVar_of_path c env pa fs pfx nm hpa hnm

/-- A well-typed field list has a well-typed value at every index. -/
theorem hasTyFields_nth :
    ∀ (i : Nat) (fs : FieldList) (vs : ValList) (n : String) (r : Bool) (sch : Sch),
      hasTyFields fs vs = true → nthF fs i = some (n, r, sch) →
      ∃ v, nthV vs i = some v ∧ hasTy sch v = true := by
  intro i
  induction i with
  | zero =>
    intro fs vs n r sch hty hn
    cases fs with
    | fnil => simp [nthF] at hn
    | fcons n0 r0 sch0 rest =>
      cases vs with
      | vnil => simp [hasTyFields] at hty
      | vcons v vtail =>
        simp only [nthF, Option.some.injEq, Prod.mk.injEq] at hn
        obtain ⟨h1, h2, h3⟩ := hn
        subst h3
        simp only [hasTyFields, Bool.and_eq_true] at hty
        exact ⟨v, rfl, hty.1⟩
  | succ i ih =>
    intro fs vs n r sch hty hn
    cases fs with
    | fnil => simp [nthF] at hn
    | fcons n0 r0 sch0 rest =>
      cases vs with
      | vnil => simp [hasTyFields] at hty
      | vcons v vtail =>
        simp only [nthF] at hn
        simp only [hasTyFields, Bool.and_eq_true] at hty
        exact ih rest vtail n r sch hty.2 hn

/-- Zero values are well-typed. -/
theorem zeroVal_hasTy_aux :
    ∀ (N : Nat), (∀ sch, schSize sch ≤ N → hasTy sch (zeroVal sch) = true) ∧
      (∀ gs, fieldsSize gs ≤ N → hasTyFields gs (zeroVals gs) = true) := by
  intro N
  induction N with
  | zero =>
    constructor
    · intro sch hsz
      exfalso
      cases sch <;> simp only [schSize] at hsz <;> omega
    · intro gs hsz
      cases gs with
      | fnil => rfl
      | fcons n r sch rest =>
        exfalso
        simp only [fieldsSize] at hsz
        omega
  | succ N ih =>
    constructor
    · intro sch hsz
      cases sch with
      | leaf k => cases k <;> simp [zeroVal, hasTy]
      | slice e => rfl
      | strct gs =>
        have hgs : fieldsSize gs ≤ N := by
          simp only [schSize] at hsz
          omega
        simpa [zeroVal, hasTy] using ih.2 gs hgs
      | ptrStrct gs => rfl
    · intro gs hsz
      cases gs with
      | fnil => rfl
      | fcons n r sch rest =>
        have h1 : schSize sch ≤ N := by
          simp only [fieldsSize] at hsz
          omega
        have h2 : fieldsSize rest ≤ N := by
          simp only [fieldsSize] at hsz
          omega
        simp only [zeroVals, hasTyFields, Bool.and_eq_true]
        exact ⟨ih.1 sch h1, ih.2 rest h2⟩

theorem zeroVals_hasTy (gs : FieldList) : hasTyFields gs (zeroVals gs) = true :=
  (zeroVal_hasTy_aux (fieldsSize gs)).2 gs le_rfl

/-- A successful `processStruct` acts on the i-th value through
    `processField` of the i-th field. -/
theorem processStruct_nth (c : Config) (env : Env) :
    ∀ (i : Nat) (fs : FieldList) (vs vs' : ValList) (pfx n : String) (r : Bool)
      (sch : Sch) (v : Val),
      processStruct c env fs vs pfx = .ok vs' →
      nthF fs i = some (n, r, sch) →
      nthV vs i = some v →
      ∃ v', nthV vs' i = some v' ∧ processField c env n sch v pfx = .ok v' := by
  intro i
  induction i with
  | zero =>
    intro fs vs vs' pfx n r sch v hp hn hv
    cases fs with
    | fnil => simp [nthF] at hn
    | fcons n0 r0 sch0 rest =>
      cases vs with
      | vnil => simp [nthV] at hv
      | vcons v0 vtail =>
        simp only [nthF, Option.some.injEq, Prod.mk.injEq] at hn
        obtain ⟨h1, h2, h3⟩ := hn
        subst h1
        subst h3
        simp only [nthV, Option.some.injEq] at hv
        subst hv
        simp only [processStruct] at hp
        cases hf : processField c env n0 sch0 v0 pfx with
        | error e => rw [hf] at hp; cases hp
        | ok v1 =>
          rw [hf] at hp
          cases hrest : processStruct c env rest vtail pfx with
          | error e => rw [hrest] at hp; cases hp
          | ok tail1 =>
            rw [hrest] at hp
            cases hp
            exact ⟨v1, rfl, rfl⟩
  | succ i ih =>
    intro fs vs vs' pfx n r sch v hp hn hv
    cases fs with
    | fnil => simp [nthF] at hn
    | fcons n0 r0 sch0 rest =>
      cases vs with
      | vnil => simp [nthV] at hv
      | vcons v0 vtail =>
        simp only [nthF] at hn
        simp only [nthV] at hv
        simp only [processStruct] at hp
        cases hf : processField c env n0 sch0 v0 pfx with
        | error e => rw [hf] at hp; cases hp
        | ok v1 =>
          rw [hf] at hp
          cases hrest : processStruct c env rest vtail pfx with
          | error e => rw [hrest] at hp; cases hp
          | ok tail1 =>
            rw [hrest] at hp
            cases hp
            obtain ⟨v', hv', hpf⟩ := ih rest vtail tail1 pfx n r sch v hrest hn hv
            exact ⟨v', hv', hpf⟩

/-- For a leaf-like field the current value does not influence coercion. -/
theorem setFieldValue_leafLike (sch : Sch) (hl : isLeafLike sch = true) (v : Val)
    (s : String) : setFieldValue sch v s = setFieldValue sch (zeroVal sch) s := by
  cases sch with
  | leaf k => cases k <;> rfl
  | slice e => rfl
  | strct gs => simp [isLeafLike] at hl
  | ptrStrct gs => simp [isLeafLike] at hl

/-- `processField` on a leaf-like field is exactly the (error-wrapped)
    environment binding. -/
theorem processField_leafLike (c : Config) (env : Env) (n : String) (sch : Sch)
    (hl : isLeafLike sch = true) (v v' : Val) (pfx : String) :
    processField c env n sch v pfx = .ok v' ↔
      setFieldFromEnv env sch v (envNameFor c n pfx) = .ok v' := by
  cases sch with
  | strct gs => simp [isLeafLike] at hl
  | ptrStrct gs => simp [isLeafLike] at hl
  | leaf k =>
    show (match setFieldFromEnv env (.leaf k) v (envNameFor c n pfx) with
        | .error e => Except.error (EnvErr.fieldErr n e)
        | .ok w => Except.ok w) = .ok v' ↔ _
    cases h : setFieldFromEnv env (.leaf k) v (envNameFor c n pfx) <;> simp [h]
  | slice e =>
    show (match setFieldFromEnv env (.slice e) v (envNameFor c n pfx) with
        | .error e => Except.error (EnvErr.fieldErr n e)
        | .ok w => Except.ok w) = .ok v' ↔ _
    cases h : setFieldFromEnv env (.slice e) v (envNameFor c n pfx) <;> simp [h]

/-- `processField` on a nested record is exactly the recursive walk. -/
theorem processField_strct (c : Config) (env : Env) (n : String) (gs : FieldList)
    (ws : ValList) (pfx : String) (v' : Val) :
    processField c env n (.strct gs) (.vStruct ws) pfx = .ok v' ↔
      ∃ ws', processStruct c env gs ws (buildPfx pfx n) = .ok ws' ∧ v' = .vStruct ws' := by
  show (match processStruct c env gs ws (buildPfx pfx n) with
      | .error e => Except.error e
      | .ok ws' => Except.ok (Val.vStruct ws')) = .ok v' ↔ _
  cases h : processStruct c env gs ws (buildPfx pfx n) <;> simp [h, eq_comm]

/-- `processField` on a nullable nested record, written out. -/
theorem processField_ptrStrct (c : Config) (env : Env) (n : String) (gs : FieldList)
    (v : Val) (pfx : String) :
    processField c env n (.ptrStrct gs) v pfx =
      (if hasAnyEnvVar c env gs (buildPfx pfx n) then
        match v with
        | .vNil =>
          match processStruct c env gs (zeroVals gs) (buildPfx pfx n) with
          | .error e => .error e
          | .ok ws' => .ok (.vPtr (.vStruct ws'))
        | .vPtr (.vStruct ws) =>
          match processStruct c env gs ws (buildPfx pfx n) with
          | .error e => .error e
          | .ok ws' => .ok (.vPtr (.vStruct ws'))
        | w' => .ok w'
      else .ok v) := rfl

/-- Main overlay lemma: after a successful `processStruct`, every leaf-like
    path holds the coerced value of its (non-empty) environment variable, and
    keeps its previous value when the variable is empty/unset. -/
theorem processStruct_leaf_path (c : Config) (env : Env) :
    ∀ (pa : List Nat) (fs : FieldList) (vs vs' : ValList) (pfx : String) (sch : Sch)
      (nm : String),
      hasTyFields fs vs = true →
      processStruct c env fs vs pfx = .ok vs' →
      pathSch fs pa = some sch →
      isLeafLike sch = true →
      pathEnvName c fs pfx pa = some nm →
      ((env nm = "" → ∀ v, valAt vs pa = some v → valAt vs' pa = some v) ∧
       (env nm ≠ "" → ∃ v', valAt vs' pa = some v' ∧
         setFieldValue sch (zeroVal sch) (env nm) = .ok v')) := by
  intro pa
  induction pa with
  | nil =>
    intro fs vs vs' pfx sch nm _ _ hps
    simp [pathSch] at hps
  | cons i rest ih =>
    intro fs vs vs' pfx sch nm hty hp hps hleaf hpe
    cases hn : nthF fs i with
    | none =>
      simp only [pathSch] at hps
      rw [hn] at hps
      cases hps
    | some t =>
      obtain ⟨n0, r0, sch0⟩ := t
      simp only [pathSch] at hps
      rw [hn] at hps
      simp only [pathEnvName] at hpe
      rw [hn] at hpe
      obtain ⟨v0, hv0, htyv0⟩ := hasTyFields_nth i fs vs n0 r0 sch0 hty hn
      obtain ⟨v0', hv0', hpf⟩ := processStruct_nth c env i fs vs vs' pfx n0 r0 sch0 v0 hp hn hv0
      cases rest with
      | nil =>
        have hps' : some sch0 = some sch := hps
        injection hps' with hes
        subst hes
        have hpe' : (if isLeafLike sch0 = true then some (envNameFor c n0 pfx) else none) =
            some nm := hpe
        rw [if_pos hleaf] at hpe'
        injection hpe' with hpe'
        subst hpe'
        have hbind := (processField_leafLike c env n0 sch0 hleaf v0 v0' pfx).mp hpf
        constructor
        · intro he v hval
          simp only [valAt] at hval ⊢
          rw [hv0] at hval
          rw [hv0']
          have : v0' = v0 := by
            simp only [setFieldFromEnv, if_pos he] at hbind
            injection hbind with h
            exact h.symm
          rw [this]
          exact hval
        · intro hne
          refine ⟨v0', ?_, ?_⟩
          · simp only [valAt]
            rw [hv0']
          · simp only [setFieldFromEnv, if_neg hne] at hbind
            rw [← setFieldValue_leafLike sch0 hleaf v0 (env (envNameFor c n0 pfx))]
            exact hbind
      | cons j rest' =>
        cases sch0 with
        | leaf k => simp at hps
        | slice e => simp at hps
        | strct gs =>
          cases v0 with
          | vStruct ws =>
            obtain ⟨ws', hrec, hes⟩ := (processField_strct c env n0 gs ws pfx v0').mp hpf
            subst hes
            have htyws : hasTyFields gs ws = true := by
              simpa [hasTy] using htyv0
            have IH := ih gs ws ws' (buildPfx pfx n0) sch nm htyws hrec hps hleaf hpe
            constructor
            · intro he v hval
              simp only [valAt] at hval ⊢
              rw [hv0] at hval
              rw [hv0']
              exact IH.1 he v hval
            · intro hne
              obtain ⟨v', hv', hset⟩ := IH.2 hne
              refine ⟨v', ?_, hset⟩
              simp only [valAt]
              rw [hv0']
              exact hv'
          | vStr s => simp [hasTy] at htyv0
          | vBool b => simp [hasTy] at htyv0
          | vInt w n1 => simp [hasTy] at htyv0
          | vUint w n1 => simp [hasTy] at htyv0
          | vSliceNil => simp [hasTy] at htyv0
          | vSlice xs => simp [hasTy] at htyv0
          | vNil => simp [hasTy] at htyv0
          | vPtr w => simp [hasTy] at htyv0
        | ptrStrct gs =>
          rw [processField_ptrStrct] at hpf
          by_cases hany : hasAnyEnvVar c env gs (buildPfx pfx n0) = true
          · rw [if_pos hany] at hpf
            cases v0 with
            | vNil =>
              have hpf2 : (match processStruct c env gs (zeroVals gs) (buildPfx pfx n0) with
                  | .error e => Except.error e
                  | .ok ws' => Except.ok (Val.vPtr (Val.vStruct ws'))) = .ok v0' := hpf
              have hrecs : ∃ ws', processStruct c env gs (zeroVals gs) (buildPfx pfx n0) =
                  .ok ws' ∧ v0' = .vPtr (.vStruct ws') := by
                revert hpf2
                cases hr : processStruct c env gs (zeroVals gs) (buildPfx pfx n0) with
                | error e => intro hpf2; cases hpf2
                | ok ws' =>
                  intro hpf2
                  injection hpf2 with h
                  exact ⟨ws', rfl, h.symm⟩
              obtain ⟨ws', hrec, hes⟩ := hrecs
              subst hes
              have IH := ih gs (zeroVals gs) ws' (buildPfx pfx n0) sch nm
                (zeroVals_hasTy gs) hrec hps hleaf hpe
              constructor
              · intro he v hval
                exfalso
                simp only [valAt] at hval
                rw [hv0] at hval
                cases hval
              · intro hne
                obtain ⟨v', hv', hset⟩ := IH.2 hne
                refine ⟨v', ?_, hset⟩
                simp only [valAt]
                rw [hv0']
                exact hv'
            | vPtr w =>
              cases w with
              | vStruct ws =>
                have hpf2 : (match processStruct c env gs ws (buildPfx pfx n0) with
                    | .error e => Except.error e
                    | .ok ws' => Except.ok (Val.vPtr (Val.vStruct ws'))) = .ok v0' := hpf
                have hrecs : ∃ ws', processStruct c env gs ws (buildPfx pfx n0) =
                    .ok ws' ∧ v0' = .vPtr (.vStruct ws') := by
                  revert hpf2
                  cases hr : processStruct c env gs ws (buildPfx pfx n0) with
                  | error e => intro hpf2; cases hpf2
                  | ok ws' =>
                    intro hpf2
                    injection hpf2 with h
                    exact ⟨ws', rfl, h.symm⟩
                obtain ⟨ws', hrec, hes⟩ := hrecs
                subst hes
                have htyws : hasTyFields gs ws = true := by
                  simpa [hasTy] using htyv0
                have IH := ih gs ws ws' (buildPfx pfx n0) sch nm htyws hrec hps hleaf hpe
                constructor
                · intro he v hval
                  simp only [valAt] at hval ⊢
                  rw [hv0] at hval
                  rw [hv0']
                  exact IH.1 he v hval
                · intro hne
                  obtain ⟨v', hv', hset⟩ := IH.2 hne
                  refine ⟨v', ?_, hset⟩
                  simp only [valAt]
                  rw [hv0']
                  exact hv'
              | vStr s => simp [hasTy] at htyv0
              | vBool b => simp [hasTy] at htyv0
              | vInt w1 n1 => simp [hasTy] at htyv0
              | vUint w1 n1 => simp [hasTy] at htyv0
              | vSliceNil => simp [hasTy] at htyv0
              | vSlice xs => simp [hasTy] at htyv0
              | vNil => simp [hasTy] at htyv0
              | vPtr w1 => simp [hasTy] at htyv0
            | vStr s => simp [hasTy] at htyv0
            | vBool b => simp [hasTy] at htyv0
            | vInt w1 n1 => simp [hasTy] at htyv0
            | vUint w1 n1 => simp [hasTy] at htyv0
            | vSliceNil => simp [hasTy] at htyv0
            | vSlice xs => simp [hasTy] at htyv0
            | vStruct ws => simp [hasTy] at htyv0
          · rw [if_neg hany] at hpf
            injection hpf with hes
            subst hes
            constructor
            · intro he v hval
              simp only [valAt] at hval ⊢
              rw [hv0] at hval
              rw [hv0']
              exact hval
            · intro hne
              exact absurd
                (hasAnyEnvVar_of_path c env (j :: rest') gs (buildPfx pfx n0) nm hpe hne) hany

/-- On well-typed values, dynamic-type comparability equals the schema's
    static comparability. -/
theorem valComparable_of_hasTy_aux :
    ∀ (N : Nat),
      (∀ (sch : Sch) (v : Val), valSize v ≤ N → hasTy sch v = true →
        valComparable v = schComparable sch) ∧
      (∀ (gs : FieldList) (ws : ValList), valsSize ws ≤ N → hasTyFields gs ws = true →
        valsComparable ws = fieldsComparable gs) := by
  intro N
  induction N with
  | zero =>
    constructor
    · intro sch v hsz
      exfalso
      cases v <;> simp only [valSize] at hsz <;> omega
    · intro gs ws hsz hty
      cases ws with
      | vnil =>
        cases gs with
        | fnil => rfl
        | fcons _ _ _ _ => simp [hasTyFields] at hty
      | vcons v vs =>
        exfalso
        simp only [valsSize] at hsz
        omega
  | succ N ih =>
    constructor
    · intro sch v hsz hty
      cases sch with
      | leaf k =>
        cases k with
        | str => cases v <;> simp [hasTy] at hty <;> rfl
        | bool => cases v <;> simp [hasTy] at hty <;> rfl
        | int w => cases v <;> simp [hasTy] at hty <;> rfl
        | uint w => cases v <;> simp [hasTy] at hty <;> rfl
      | slice e => cases v <;> simp [hasTy] at hty <;> rfl
      | strct gs =>
        cases v <;> simp [hasTy] at hty
        case vStruct ws =>
          have hws : valsSize ws ≤ N := by
            simp only [valSize] at hsz
            omega
          simpa [valComparable, schComparable] using ih.2 gs ws hws hty
      | ptrStrct gs =>
        cases v with
        | vNil => rfl
        | vPtr w => rfl
        | vStr _ => simp [hasTy] at hty
        | vBool _ => simp [hasTy] at hty
        | vInt _ _ => simp [hasTy] at hty
        | vUint _ _ => simp [hasTy] at hty
        | vSliceNil => simp [hasTy] at hty
        | vSlice _ => simp [hasTy] at hty
        | vStruct _ => simp [hasTy] at hty
    · intro gs ws hsz hty
      cases ws with
      | vnil =>
        cases gs with
        | fnil => rfl
        | fcons _ _ _ _ => simp [hasTyFields] at hty
      | vcons v vs =>
        cases gs with
        | fnil => simp [hasTyFields] at hty
        | fcons n r sch rest =>
          simp only [hasTyFields, Bool.and_eq_true] at hty
          obtain ⟨hty1, hty2⟩ := hty
          have hv : valSize v ≤ N := by
            simp only [valsSize] at hsz
            omega
          have hvs : valsSize vs ≤ N := by
            simp only [valsSize] at hsz
            omega
          simp only [valsComparable, fieldsComparable]
          rw [ih.1 sch v hv hty1, ih.2 rest vs hvs hty2]

/-- When the field's type admits a safe zero check, the source zero test
    returns normally (no panic) and agrees with the specification-side zero
    test. -/
theorem isZeroValue_eq_spec (sch : Sch) (v : Val) (hty : hasTy sch v = true)
    (hsafe : zeroCheckSafe sch = true) : isZeroValue v = some (isZeroSpec v) := by
  cases v with
  | vStruct ws =>
    cases sch with
    | strct gs =>
      have htyf : hasTyFields gs ws = true := hty
      have hcmpf : fieldsComparable gs = true := hsafe
      have hcmp : valsComparable ws = fieldsComparable gs :=
        (valComparable_of_hasTy_aux (valsSize ws)).2 gs ws le_rfl htyf
      simp only [isZeroValue, isZeroSpec]
      rw [hcmp, if_pos hcmpf]
    | leaf k => cases k <;> simp [hasTy] at hty
    | slice e => simp [hasTy] at hty
    | ptrStrct gs => simp [hasTy] at hty
  | vStr s => rfl
  | vBool b => rfl
  | vInt w n => rfl
  | vUint w n => rfl
  | vSliceNil => rfl
  | vSlice xs => rfl
  | vNil => rfl
  | vPtr w => rfl

/-- Under well-typedness and walk safety (no required field of uncomparable
    struct type anywhere), `validateStruct` never panics: it fails exactly on
    the head of the pre-order list of required-and-zero field paths, and
    succeeds when that list is empty. -/
theorem validateStruct_eq_reqZero_aux :
    ∀ (N : Nat) (fs : FieldList) (vs : ValList) (pfx : String), fieldsSize fs ≤ N →
      hasTyFields fs vs = true → validateSafe fs = true →
      validateStruct fs vs pfx =
        match requiredZeroPaths fs vs pfx with
        | [] => VOut.vok
        | q :: _ => VOut.verr (.requiredField q) := by
  intro N
  induction N with
  | zero =>
    intro fs vs pfx hsz hty hsafe
    cases fs with
    | fnil => cases vs <;> rfl
    | fcons n req sch rest =>
      exfalso
      simp only [fieldsSize] at hsz
      omega
  | succ N ih =>
    intro fs vs pfx hsz hty hsafe
    cases fs with
    | fnil => cases vs <;> rfl
    | fcons n req sch rest =>
      cases vs with
      | vnil => rfl
      | vcons v vtail =>
        simp only [hasTyFields, Bool.and_eq_true] at hty
        obtain ⟨hty1, hty2⟩ := hty
        simp only [validateSafe, Bool.and_eq_true] at hsafe
        obtain ⟨hsafe1, hsafe2⟩ := hsafe
        have hszs : fieldsSize rest ≤ N := by
          simp only [fieldsSize, schSize] at hsz
          cases sch <;> simp only [schSize] at hsz <;> omega
        have hgssz : ∀ gs : FieldList, sch = .strct gs ∨ sch = .ptrStrct gs →
            fieldsSize gs ≤ N := by
          rintro gs (h | h) <;> subst h <;> simp only [fieldsSize, schSize] at hsz <;> omega
        rw [validateSafeField.eq_def, Bool.and_eq_true] at hsafe1
        obtain ⟨hzsafe, hrecsafe⟩ := hsafe1
        have hfield : validateField n req sch v pfx =
            match reqZeroField n req sch v pfx with
            | [] => VOut.vok
            | q :: _ => VOut.verr (.requiredField q) := by
          rw [validateField.eq_def, reqZeroField.eq_def]
          cases req with
          | true =>
            have hzsafe' : zeroCheckSafe sch = true := hzsafe
            rw [isZeroValue_eq_spec sch v hty1 hzsafe']
            cases hzz : isZeroSpec v with
            | true => rfl
            | false =>
              cases sch with
              | leaf k => cases v <;> rfl
              | slice e => cases v <;> rfl
              | strct gs =>
                cases v with
                | vStruct ws =>
                  exact ih gs ws (buildFieldPath pfx n) (hgssz gs (Or.inl rfl)) hty1 hrecsafe
                | vStr _ => rfl
                | vBool _ => rfl
                | vInt _ _ => rfl
                | vUint _ _ => rfl
                | vSliceNil => rfl
                | vSlice _ => rfl
                | vNil => rfl
                | vPtr _ => rfl
              | ptrStrct gs =>
                cases v with
                | vPtr w =>
                  cases w with
                  | vStruct ws =>
                    exact ih gs ws (buildFieldPath pfx n) (hgssz gs (Or.inr rfl)) hty1
                      hrecsafe
                  | vStr _ => rfl
                  | vBool _ => rfl
                  | vInt _ _ => rfl
                  | vUint _ _ => rfl
                  | vSliceNil => rfl
                  | vSlice _ => rfl
                  | vNil => rfl
                  | vPtr _ => rfl
                | vStr _ => rfl
                | vBool _ => rfl
                | vInt _ _ => rfl
                | vUint _ _ => rfl
                | vSliceNil => rfl
                | vSlice _ => rfl
                | vNil => rfl
                | vStruct _ => rfl
          | false =>
            cases sch with
            | leaf k => cases v <;> rfl
            | slice e => cases v <;> rfl
            | strct gs =>
              cases v with
              | vStruct ws =>
                exact ih gs ws (buildFieldPath pfx n) (hgssz gs (Or.inl rfl)) hty1 hrecsafe
              | vStr _ => rfl
              | vBool _ => rfl
              | vInt _ _ => rfl
              | vUint _ _ => rfl
              | vSliceNil => rfl
              | vSlice _ => rfl
              | vNil => rfl
              | vPtr _ => rfl
            | ptrStrct gs =>
              cases v with
              | vPtr w =>
                cases w with
                | vStruct ws =>
                  exact ih gs ws (buildFieldPath pfx n) (hgssz gs (Or.inr rfl)) hty1 hrecsafe
                | vStr _ => rfl
                | vBool _ => rfl
                | vInt _ _ => rfl
                | vUint _ _ => rfl
                | vSliceNil => rfl
                | vSlice _ => rfl
                | vNil => rfl
                | vPtr _ => rfl
              | vStr _ => rfl
              | vBool _ => rfl
              | vInt _ _ => rfl
              | vUint _ _ => rfl
              | vSliceNil => rfl
              | vSlice _ => rfl
              | vNil => rfl
              | vStruct _ => rfl
        simp only [validateStruct, requiredZeroPaths]
        rw [hfield]
        cases hq : reqZeroField n req sch v pfx with
        | nil =>
          simp only [List.nil_append]
          exact ih rest vtail pfx hszs hty2 hsafe2
        | cons q qs => simp

/-- On a well-typed value, the specification-side `isZeroSpec` agrees with "equals the
    type's zero value". -/
theorem isZeroSpec_iff_zeroVal_aux :
    ∀ (N : Nat),
      (∀ (sch : Sch) (v : Val), valSize v ≤ N → hasTy sch v = true →
        (isZeroSpec v = true ↔ v = zeroVal sch)) ∧
      (∀ (gs : FieldList) (ws : ValList), valsSize ws ≤ N → hasTyFields gs ws = true →
        (allZero ws = true ↔ ws = zeroVals gs)) := by
  intro N
  induction N with
  | zero =>
    constructor
    · intro sch v hsz
      exfalso
      cases v <;> simp only [valSize] at hsz <;> omega
    · intro gs ws hsz hty
      cases ws with
      | vnil =>
        cases gs with
        | fnil => simp [allZero, zeroVals]
        | fcons _ _ _ _ => simp [hasTyFields] at hty
      | vcons v vs =>
        exfalso
        simp only [valsSize] at hsz
        omega
  | succ N ih =>
    constructor
    · intro sch v hsz hty
      cases sch with
      | leaf k =>
        cases k with
        | str =>
          cases v <;> simp [hasTy] at hty <;> simp [isZeroSpec, zeroVal]
        | bool =>
          cases v <;> simp [hasTy] at hty <;> simp [isZeroSpec, zeroVal]
        | int w =>
          cases v <;> simp [hasTy] at hty
          subst hty
          simp [isZeroSpec, zeroVal]
        | uint w =>
          cases v <;> simp [hasTy] at hty
          subst hty
          simp [isZeroSpec, zeroVal]
      | slice e =>
        cases v <;> simp [hasTy] at hty <;> simp [isZeroSpec, zeroVal]
      | strct gs =>
        cases v <;> simp [hasTy] at hty
        case vStruct ws =>
          have hws : valsSize ws ≤ N := by
            simp only [valSize] at hsz
            omega
          have := (ih.2 gs ws hws hty)
          simp only [isZeroSpec, zeroVal, Val.vStruct.injEq]
          exact this
      | ptrStrct gs =>
        cases v with
        | vNil => simp [isZeroSpec, zeroVal]
        | vPtr w =>
          simp only [isZeroSpec, zeroVal]
          constructor
          · intro h; cases h
          · intro h; cases h
        | vStr _ => simp [hasTy] at hty
        | vBool _ => simp [hasTy] at hty
        | vInt _ _ => simp [hasTy] at hty
        | vUint _ _ => simp [hasTy] at hty
        | vSliceNil => simp [hasTy] at hty
        | vSlice _ => simp [hasTy] at hty
        | vStruct _ => simp [hasTy] at hty
    · intro gs ws hsz hty
      cases ws with
      | vnil =>
        cases gs with
        | fnil => simp [allZero, zeroVals]
        | fcons _ _ _ _ => simp [hasTyFields] at hty
      | vcons v vs =>
        cases gs with
        | fnil => simp [hasTyFields] at hty
        | fcons n r sch rest =>
          simp only [hasTyFields, Bool.and_eq_true] at hty
          obtain ⟨hty1, hty2⟩ := hty
          have hv : valSize v ≤ N := by
            simp only [valsSize] at hsz
            omega
          have hvs : valsSize vs ≤ N := by
            simp only [valsSize] at hsz
            omega
          simp only [allZero, zeroVals, Bool.and_eq_true, ValList.vcons.injEq]
          rw [ih.1 sch v hv hty1, ih.2 rest vs hvs hty2]

/-! String length plumbing for the env-prefix-independence argument. -/

theorem toUpperStr_len (s : String) : (toUpperStr s).length = s.length := by
  obtain ⟨l⟩ := s
  show (String.mk (l.map upChar)).length = (String.mk l).length
  simp [String.length]

theorem append_len (a b : String) : (a ++ b).length = a.length + b.length := by
  obtain ⟨la⟩ := a
  obtain ⟨lb⟩ := b
  show (String.mk (la ++ lb)).length = (String.mk la).length + (String.mk lb).length
  simp [String.length]

theorem len_zero_eq_empty (s : String) : s.length = 0 → s = "" := by
  obtain ⟨l⟩ := s
  intro h
  simp only [String.length] at h
  have : l = [] := List.length_eq_zero.mp h
  subst this
  rfl

/-- `processStruct` step for one field, packaged for concrete assembly. -/
theorem processStruct_cons (c : Config) (env : Env) (n : String) (r : Bool) (sch : Sch)
    (rest : FieldList) (v : Val) (vtail : ValList) (pfx : String) (v' : Val)
    (vtail' : ValList) :
    processField c env n sch v pfx = .ok v' →
    processStruct c env rest vtail pfx = .ok vtail' →
    processStruct c env (.fcons n r sch rest) (.vcons v vtail) pfx =
      .ok (.vcons v' vtail') := by
  intro h1 h2
  simp only [processStruct]
  rw [h1, h2]

/-! ## Claim theorems -/

/-- C1: for every target record, YAML outcome and environment, after a
    successful `Load` a leaf-like field whose environment variable is set
    (non-empty) holds the value coerced from that variable — even when the
    YAML step supplied one — while a leaf whose variable is absent keeps the
    value the YAML step left (the type default when YAML supplied none). -/
theorem claim_C1_env_overrides_yaml :
    ∀ (c : Config) (rd : ReadResult) (um : String → ValList → Except String ValList)
      (env : Env) (fs : FieldList) (vs v1 vs' : ValList) (pa : List Nat) (sch : Sch)
      (nm : String),
      Load c rd um env fs vs = .ok vs' →
      yamlStep c rd um vs = .ok v1 →
      hasTyFields fs v1 = true →
      pathSch fs pa = some sch →
      isLeafLike sch = true →
      pathEnvName c fs "" pa = some nm →
      ((env nm ≠ "" → ∃ v', valAt vs' pa = some v' ∧
         setFieldValue sch (zeroVal sch) (env nm) = .ok v') ∧
       (env nm = "" → ∀ v, valAt v1 pa = some v → valAt vs' pa = some v)) := by
  intro c rd um env fs vs v1 vs' pa sch nm hload hyaml hty hps hleaf hpe
  have hproc : processStruct c env fs v1 "" = .ok vs' := by
    simp only [Load] at hload
    rw [hyaml] at hload
    have hload2 : (match processStruct c env fs v1 "" with
        | .error e => Except.error (LoadErr.envWrap e)
        | .ok v2 => Except.ok v2) = Except.ok vs' := hload
    cases hp : processStruct c env fs v1 "" with
    | error e => rw [hp] at hload2; cases hload2
    | ok v2 =>
      rw [hp] at hload2
      injection hload2 with h
      rw [h]
  have H := processStruct_leaf_path c env pa fs v1 vs' "" sch nm hty hproc hps hleaf hpe
  exact ⟨H.2, H.1⟩

/-- Witness for C1: with `SERVER_HOST=env-host` set and `SERVER_PORT` unset,
    loading over a YAML-supplied value overrides Host and keeps Port. -/
theorem claim_C1_witness :
    Load ⟨"", "", []⟩ .notExist (fun _ v => .ok v) demoEnv1 demoFs demoVs = .ok demoVs' ∧
    valAt demoVs' [0, 0] = some (.vStr "env-host") ∧
    valAt demoVs' [0, 1] = some (.vInt 64 3000) := by
  refine ⟨rfl, ?_, ?_⟩
  · obtain ⟨v', hv', hset⟩ := (claim_C1_env_overrides_yaml ⟨"", "", []⟩ .notExist
      (fun _ v => .ok v) demoEnv1 demoFs demoVs demoVs demoVs' [0, 0] (.leaf .str)
      "SERVER_HOST" rfl rfl rfl rfl rfl rfl).1 (by decide)
    have h2 : (Except.ok (Val.vStr "env-host") : Except CoerceErr Val) = .ok v' := hset
    injection h2 with h2
    rw [← h2] at hv'
    exact hv'
  · exact (claim_C1_env_overrides_yaml ⟨"", "", []⟩ .notExist (fun _ v => .ok v) demoEnv1
      demoFs demoVs demoVs demoVs' [0, 1] (.leaf (.int 64)) "SERVER_PORT"
      rfl rfl rfl rfl rfl rfl).2 rfl (.vInt 64 3000) rfl

/-- C3 (amended): after a successful `Load`, a nullable nested record field
    of the target is nil iff it was nil after the YAML step AND no
    environment variable is set (non-empty) for any leaf reachable under its
    derived prefix (including leaves of deeper nested records); whenever such
    a variable exists the field is allocated (if it was nil, from the zero
    record) and its pointee is populated by the same recursive walk as a
    non-nullable nested record. -/
theorem claim_C3_nullable_record :
    ∀ (c : Config) (rd : ReadResult) (um : String → ValList → Except String ValList)
      (env : Env) (fs : FieldList) (vs v1 vs' : ValList) (i : Nat) (n : String)
      (r : Bool) (gs : FieldList),
      Load c rd um env fs vs = .ok vs' →
      yamlStep c rd um vs = .ok v1 →
      hasTyFields fs v1 = true →
      nthF fs i = some (n, r, .ptrStrct gs) →
      ((nthV vs' i = some .vNil ↔
         (nthV v1 i = some .vNil ∧
          ¬∃ pa nm, pathEnvName c gs (buildPfx "" n) pa = some nm ∧ env nm ≠ "")) ∧
       ((∃ pa nm, pathEnvName c gs (buildPfx "" n) pa = some nm ∧ env nm ≠ "") →
         ∃ ws ws', nthV vs' i = some (.vPtr (.vStruct ws')) ∧
           processStruct c env gs ws (buildPfx "" n) = .ok ws' ∧
           (nthV v1 i = some (.vPtr (.vStruct ws)) ∨
            (nthV v1 i = some .vNil ∧ ws = zeroVals gs)))) := by
  intro c rd um env fs vs v1 vs' i n r gs hload hyaml hty hn
  have hproc : processStruct c env fs v1 "" = .ok vs' := by
    simp only [Load] at hload
    rw [hyaml] at hload
    have hload2 : (match processStruct c env fs v1 "" with
        | .error e => Except.error (LoadErr.envWrap e)
        | .ok v2 => Except.ok v2) = Except.ok vs' := hload
    cases hp : processStruct c env fs v1 "" with
    | error e => rw [hp] at hload2; cases hload2
    | ok v2 =>
      rw [hp] at hload2
      injection hload2 with h
      rw [h]
  obtain ⟨v0, hv0, htyv0⟩ := hasTyFields_nth i fs v1 n r (.ptrStrct gs) hty hn
  obtain ⟨v0', hv0', hpf⟩ := processStruct_nth c env i fs v1 vs' "" n r (.ptrStrct gs) v0
    hproc hn hv0
  rw [processField_ptrStrct] at hpf
  have hiff := hasAnyEnvVar_iff_exists_path c env gs (buildPfx "" n)
  by_cases hany : hasAnyEnvVar c env gs (buildPfx "" n) = true
  · rw [if_pos hany] at hpf
    have hex : ∃ pa nm, pathEnvName c gs (buildPfx "" n) pa = some nm ∧ env nm ≠ "" :=
      hiff.mp hany
    cases v0 with
    | vNil =>
      have hpf2 : (match processStruct c env gs (zeroVals gs) (buildPfx "" n) with
          | .error e => Except.error e
          | .ok ws' => Except.ok (Val.vPtr (Val.vStruct ws'))) = .ok v0' := hpf
      have hrecs : ∃ ws', processStruct c env gs (zeroVals gs) (buildPfx "" n) =
          .ok ws' ∧ v0' = .vPtr (.vStruct ws') := by
        revert hpf2
        cases hr : processStruct c env gs (zeroVals gs) (buildPfx "" n) with
        | error e => intro hpf2; cases hpf2
        | ok ws' =>
          intro hpf2
          injection hpf2 with h
          exact ⟨ws', rfl, h.symm⟩
      obtain ⟨ws', hrec, hes⟩ := hrecs
      subst hes
      constructor
      · constructor
        · intro hnil
          rw [hv0'] at hnil
          injection hnil with hnil
          cases hnil
        · rintro ⟨-, hne⟩
          exact absurd hex hne
      · intro _
        exact ⟨zeroVals gs, ws', hv0', hrec, Or.inr ⟨hv0, rfl⟩⟩
    | vPtr w =>
      cases w with
      | vStruct ws =>
        have hpf2 : (match processStruct c env gs ws (buildPfx "" n) with
            | .error e => Except.error e
            | .ok ws' => Except.ok (Val.vPtr (Val.vStruct ws'))) = .ok v0' := hpf
        have hrecs : ∃ ws', processStruct c env gs ws (buildPfx "" n) =
            .ok ws' ∧ v0' = .vPtr (.vStruct ws') := by
          revert hpf2
          cases hr : processStruct c env gs ws (buildPfx "" n) with
          | error e => intro hpf2; cases hpf2
          | ok ws' =>
            intro hpf2
            injection hpf2 with h
            exact ⟨ws', rfl, h.symm⟩
        obtain ⟨ws', hrec, hes⟩ := hrecs
        subst hes
        constructor
        · constructor
          · intro hnil
            rw [hv0'] at hnil
            injection hnil with hnil
            cases hnil
          · rintro ⟨hnil, -⟩
            rw [hv0] at hnil
            injection hnil with hnil
            cases hnil
        · intro _
          exact ⟨ws, ws', hv0', hrec, Or.inl hv0⟩
      | vStr s => simp [hasTy] at htyv0
      | vBool b => simp [hasTy] at htyv0
      | vInt w1 n1 => simp [hasTy] at htyv0
      | vUint w1 n1 => simp [hasTy] at htyv0
      | vSliceNil => simp [hasTy] at htyv0
      | vSlice xs => simp [hasTy] at htyv0
      | vNil => simp [hasTy] at htyv0
      | vPtr w1 => simp [hasTy] at htyv0
    | vStr s => simp [hasTy] at htyv0
    | vBool b => simp [hasTy] at htyv0
    | vInt w1 n1 => simp [hasTy] at htyv0
    | vUint w1 n1 => simp [hasTy] at htyv0
    | vSliceNil => simp [hasTy] at htyv0
    | vSlice xs => simp [hasTy] at htyv0
    | vStruct ws => simp [hasTy] at htyv0
  · rw [if_neg hany] at hpf
    injection hpf with hes
    subst hes
    have hnex : ¬∃ pa nm, pathEnvName c gs (buildPfx "" n) pa = some nm ∧ env nm ≠ "" := by
      intro hex
      exact hany (hiff.mpr hex)
    constructor
    · constructor
      · intro hnil
        rw [hv0'] at hnil
        injection hnil with hnil
        exact ⟨by rw [hv0, hnil], hnex⟩
      · rintro ⟨hnil, -⟩
        rw [hv0] at hnil
        injection hnil with hnil
        rw [hv0', hnil]
    · intro hex
      exact absurd hex hnex

/-- Counterexample to C3 as stated: a nullable record already populated
    before the environment step (here by the caller / a YAML document)
    survives `Load` non-nil even though no environment variable whatsoever is
    set — the claim predicts it would be nil. -/
theorem claim_C3_counterexample :
    Load ⟨"", "", []⟩ .notExist (fun _ v => .ok v) (fun _ => "") redisFs redisVs =
      .ok redisVs ∧
    hasAnyEnvVar ⟨"", "", []⟩ (fun _ => "") redisInner "redis" = false ∧
    nthV redisVs 0 = some (.vPtr (.vStruct (.vcons (.vStr "h") .vnil))) :=
  ⟨rfl, rfl, rfl⟩

/-- Witness for the amended C3: starting from a nil pointer, an all-empty
    environment keeps it nil, while `REDIS_HOST=redis-server` allocates and
    populates it. -/
theorem claim_C3_witness :
    nthV (zeroVals redisFs) 0 = some Val.vNil ∧
    nthV (.vcons (.vPtr (.vStruct (.vcons (.vStr "redis-server") .vnil))) .vnil) 0 =
      some (.vPtr (.vStruct (.vcons (.vStr "redis-server") .vnil))) := by
  constructor
  · exact (claim_C3_nullable_record ⟨"", "", []⟩ .notExist (fun _ v => .ok v) (fun _ => "")
      redisFs (zeroVals redisFs) (zeroVals redisFs) (zeroVals redisFs) 0 "Redis" false
      redisInner rfl rfl rfl rfl).1.mpr
      ⟨rfl, by rintro ⟨pa, nm, -, hnm⟩; exact hnm rfl⟩
  · obtain ⟨ws, ws', h1, h2, h3⟩ := (claim_C3_nullable_record ⟨"", "", []⟩ .notExist
      (fun _ v => .ok v) redisEnv redisFs (zeroVals redisFs) (zeroVals redisFs)
      (.vcons (.vPtr (.vStruct (.vcons (.vStr "redis-server") .vnil))) .vnil) 0 "Redis"
      false redisInner rfl rfl rfl rfl).2
      ⟨[0], "REDIS_HOST", rfl, by decide⟩
    have h4 : some (Val.vPtr (Val.vStruct (.vcons (.vStr "redis-server") .vnil))) =
        some (Val.vPtr (Val.vStruct ws')) := h1
    injection h4 with h4
    injection h4 with h4
    injection h4 with h4
    rw [← h4] at h1
    exact h1

/-- Counterexample to C4 as stated: a `required:"true"` field whose struct
    type contains a slice (the repo's own `FeatureFlags` shape) holds its
    zero value, so the claim promises `Validate` returns a
    `RequiredFieldError` — but the source's
    `v.Interface() == reflect.Zero(v.Type()).Interface()` comparison panics
    at runtime on the uncomparable type, and `Validate` does not return at
    all. -/
theorem claim_C4_counterexample :
    Validate ⟨"", "", []⟩ cexFs (zeroVals cexFs) = .vpanic ∧
    (requiredZeroPaths cexFs (zeroVals cexFs) "").head? = some "Features" ∧
    hasTyFields cexFs (zeroVals cexFs) = true ∧
    validateSafe cexFs = false :=
  ⟨rfl, rfl, rfl, rfl⟩

/-- C4 (amended): provided no required field of the target has an
    uncomparable (slice-containing) struct type — so the zero test cannot
    panic — `Validate` returns a failure iff at least one required field
    holds its type's zero/empty value, the failure is a `RequiredFieldError`
    carrying the dotted declaration-name path of the first such field in the
    declaration-order pre-order traversal, and `Validate` returns success
    when all required fields are non-zero.  On well-typed values the
    zero/empty test coincides with "equals the type's zero value". -/
theorem claim_C4_validate_required :
    (∀ (c : Config) (fs : FieldList) (vs : ValList),
      hasTyFields fs vs = true → validateSafe fs = true →
      ((Validate c fs vs = .vok ↔ requiredZeroPaths fs vs "" = []) ∧
       (∀ q, Validate c fs vs = .verr (.requiredField q) ↔
         (requiredZeroPaths fs vs "").head? = some q))) ∧
    (∀ (sch : Sch) (v : Val), hasTy sch v = true →
      (isZeroSpec v = true ↔ v = zeroVal sch)) := by
  constructor
  · intro c fs vs hty hsafe
    have h := validateStruct_eq_reqZero_aux (fieldsSize fs) fs vs "" le_rfl hty hsafe
    constructor
    · rw [Validate, h]
      cases requiredZeroPaths fs vs "" <;> simp
    · intro q
      rw [Validate, h]
      cases requiredZeroPaths fs vs "" <;> simp
  · intro sch v hty
    exact (isZeroSpec_iff_zeroVal_aux (valSize v)).1 sch v le_rfl hty

/-- Witness for the amended C4: a required nested `Host` left empty fails
    with the dotted path "Server.Host"; with it filled, validation
    succeeds. -/
theorem claim_C4_witness :
    Validate ⟨"", "", []⟩
        (.fcons "Server" false (.strct (.fcons "Host" true (.leaf .str) .fnil)) .fnil)
        (.vcons (.vStruct (.vcons (.vStr "") .vnil)) .vnil) =
      .verr (.requiredField "Server.Host") ∧
    Validate ⟨"", "", []⟩ (.fcons "Host" true (.leaf .str) .fnil)
        (.vcons (.vStr "h") .vnil) = .vok ∧
    hasTy (.leaf .str) (.vStr "") = true ∧
    (isZeroSpec (.vStr "") = true ↔ .vStr "" = zeroVal (.leaf .str)) :=
  ⟨((claim_C4_validate_required.1 ⟨"", "", []⟩
      (.fcons "Server" false (.strct (.fcons "Host" true (.leaf .str) .fnil)) .fnil)
      (.vcons (.vStruct (.vcons (.vStr "") .vnil)) .vnil) rfl rfl).2 "Server.Host").mpr rfl,
    (claim_C4_validate_required.1 ⟨"", "", []⟩ (.fcons "Host" true (.leaf .str) .fnil)
      (.vcons (.vStr "h") .vnil) rfl rfl).1.mpr rfl,
    rfl,
    claim_C4_validate_required.2 (.leaf .str) (.vStr "") rfl⟩

/-- C5: an explicit `envMapping` entry keyed by the bare field name replaces
    the derived environment-variable name outright — neither the ancestor
    prefix nor the configured env prefix is applied to it — and in the
    mapping scenario of the test suite (`Host→CUSTOM_HOST`,
    `Port→CUSTOM_PORT`, `CUSTOM_HOST=custom-host`, `CUSTOM_PORT=9090`),
    `Load` yields `Server.Host = "custom-host"` and `Server.Port = 9090`
    whatever env prefix is configured. -/
theorem claim_C5_custom_mapping_wins :
    (∀ (c : Config) (env : Env) (n : String) (sch : Sch) (v : Val) (pfx m : String),
      lookupMap c.envMapping n = some m → isLeafLike sch = true →
      processField c env n sch v pfx =
        match setFieldFromEnv env sch v m with
        | .error e => .error (.fieldErr n e)
        | .ok v' => .ok v') ∧
    (∀ (P : String) (rd : ReadResult) (um : String → ValList → Except String ValList),
      Load ⟨P, "", [("Host", "CUSTOM_HOST"), ("Port", "CUSTOM_PORT")]⟩ rd um mapEnv
          mapFs (zeroVals mapFs) =
        .ok (.vcons (.vStruct (.vcons (.vStr "custom-host")
          (.vcons (.vInt 64 9090) (.vcons (.vBool false) .vnil)))) .vnil)) := by
  constructor
  · intro c env n sch v pfx m hm hl
    have hname : envNameFor c n pfx = m := by
      simp [envNameFor, hm]
    cases sch with
    | strct gs => simp [isLeafLike] at hl
    | ptrStrct gs => simp [isLeafLike] at hl
    | leaf k =>
      show (match setFieldFromEnv env (.leaf k) v (envNameFor c n pfx) with
          | .error e => Except.error (EnvErr.fieldErr n e)
          | .ok w => Except.ok w) = _
      rw [hname]
    | slice e =>
      show (match setFieldFromEnv env (.slice e) v (envNameFor c n pfx) with
          | .error e => Except.error (EnvErr.fieldErr n e)
          | .ok w => Except.ok w) = _
      rw [hname]
  · intro P rd um
    have hPc : (Config.mk P "" [("Host", "CUSTOM_HOST"), ("Port", "CUSTOM_PORT")]).yamlFile
        = "" := rfl
    have htls : mapEnv (envNameFor ⟨P, "", [("Host", "CUSTOM_HOST"), ("Port", "CUSTOM_PORT")]⟩
        "TLS" "server") = "" := by
      by_cases hP : P = ""
      · subst hP
        rfl
      · have hn : envNameFor ⟨P, "", [("Host", "CUSTOM_HOST"), ("Port", "CUSTOM_PORT")]⟩
            "TLS" "server" = toUpperStr (P ++ "_" ++ "server_tls") := by
          simp [envNameFor, lookupMap, getEnvName, hP, toSnakeCase]
          rfl
        rw [hn]
        have hlen : (toUpperStr (P ++ "_" ++ "server_tls")).length = P.length + 11 := by
          rw [toUpperStr_len, append_len, append_len]
          rfl
        have h1 : toUpperStr (P ++ "_" ++ "server_tls") ≠ "CUSTOM_HOST" := by
          intro h
          have := congrArg String.length h
          rw [hlen] at this
          have hP0 : P.length = 0 := by
            have : P.length + 11 = 11 := this
            omega
          exact hP (len_zero_eq_empty P hP0)
        have h2 : toUpperStr (P ++ "_" ++ "server_tls") ≠ "CUSTOM_PORT" := by
          intro h
          have := congrArg String.length h
          rw [hlen] at this
          have hP0 : P.length = 0 := by
            have : P.length + 11 = 11 := this
            omega
          exact hP (len_zero_eq_empty P hP0)
        simp [mapEnv, h1, h2]
    have Htls : processField ⟨P, "", [("Host", "CUSTOM_HOST"), ("Port", "CUSTOM_PORT")]⟩
        mapEnv "TLS" (.leaf .bool) (.vBool false) "server" = .ok (.vBool false) := by
      apply (processField_leafLike _ mapEnv "TLS" (.leaf .bool) rfl (.vBool false)
        (.vBool false) "server").mpr
      simp only [setFieldFromEnv]
      rw [if_pos htls]
    have Hinner : processStruct ⟨P, "", [("Host", "CUSTOM_HOST"), ("Port", "CUSTOM_PORT")]⟩
        mapEnv mapServer (zeroVals mapServer) "server" =
        .ok (.vcons (.vStr "custom-host") (.vcons (.vInt 64 9090)
          (.vcons (.vBool false) .vnil))) := by
      refine processStruct_cons _ _ _ _ _ _ _ _ _ _ _ rfl ?_
      refine processStruct_cons _ _ _ _ _ _ _ _ _ _ _ rfl ?_
      exact processStruct_cons _ _ _ _ _ _ _ _ _ _ _ Htls rfl
    have Hserver : processField ⟨P, "", [("Host", "CUSTOM_HOST"), ("Port", "CUSTOM_PORT")]⟩
        mapEnv "Server" (.strct mapServer) (.vStruct (zeroVals mapServer)) "" =
        .ok (.vStruct (.vcons (.vStr "custom-host") (.vcons (.vInt 64 9090)
          (.vcons (.vBool false) .vnil)))) :=
      (processField_strct _ mapEnv "Server" mapServer (zeroVals mapServer) "" _).mpr
        ⟨_, Hinner, rfl⟩
    have Htop : processStruct ⟨P, "", [("Host", "CUSTOM_HOST"), ("Port", "CUSTOM_PORT")]⟩
        mapEnv mapFs (zeroVals mapFs) "" =
        .ok (.vcons (.vStruct (.vcons (.vStr "custom-host") (.vcons (.vInt 64 9090)
          (.vcons (.vBool false) .vnil)))) .vnil) :=
      processStruct_cons _ _ _ _ _ _ _ _ _ _ _ Hserver rfl
    simp only [Load, yamlStep, hPc]
    simp only [ne_eq, not_true_eq_false, if_false]
    rw [Htop]

/-- Witness for C5 at the empty and a non-empty env prefix. -/
theorem claim_C5_witness :
    processField ⟨"MYAPP", "", [("Host", "CUSTOM_HOST")]⟩ mapEnv "Host" (.leaf .str)
        (.vStr "") "server" =
      (match setFieldFromEnv mapEnv (.leaf .str) (.vStr "") "CUSTOM_HOST" with
       | .error e => .error (.fieldErr "Host" e)
       | .ok v' => .ok v') ∧
    Load ⟨"", "", [("Host", "CUSTOM_HOST"), ("Port", "CUSTOM_PORT")]⟩ .notExist
        (fun _ v => .ok v) mapEnv mapFs (zeroVals mapFs) =
      .ok (.vcons (.vStruct (.vcons (.vStr "custom-host")
        (.vcons (.vInt 64 9090) (.vcons (.vBool false) .vnil)))) .vnil) ∧
    Load ⟨"MYAPP", "", [("Host", "CUSTOM_HOST"), ("Port", "CUSTOM_PORT")]⟩ .notExist
        (fun _ v => .ok v) mapEnv mapFs (zeroVals mapFs) =
      .ok (.vcons (.vStruct (.vcons (.vStr "custom-host")
        (.vcons (.vInt 64 9090) (.vcons (.vBool false) .vnil)))) .vnil) :=
  ⟨claim_C5_custom_mapping_wins.1 ⟨"MYAPP", "", [("Host", "CUSTOM_HOST")]⟩ mapEnv "Host"
      (.leaf .str) (.vStr "") "server" "CUSTOM_HOST" rfl rfl,
    claim_C5_custom_mapping_wins.2 "" .notExist (fun _ v => .ok v),
    claim_C5_custom_mapping_wins.2 "MYAPP" .notExist (fun _ v => .ok v)⟩

/-- C9: a variable set to the empty string behaves exactly like an unset
    one (the code observes the environment only through `os.Getenv`, which
    conflates them): the leaf keeps its prior value with no error — hence a
    string field can never be set to "" from the environment — and only
    variables with non-empty values count towards instantiating a nullable
    nested record. -/
theorem claim_C9_empty_equals_unset :
    (∀ (env : Env) (sch : Sch) (v : Val) (nm : String), env nm = "" →
      setFieldFromEnv env sch v nm = .ok v) ∧
    (∀ (env : Env) (nm s t : String),
      setFieldFromEnv env (.leaf .str) (.vStr s) nm = .ok (.vStr t) → t = "" → s = "") ∧
    (∀ (c : Config) (env : Env) (fs : FieldList) (pfx : String),
      hasAnyEnvVar c env fs pfx = true →
      ∃ pa nm, pathEnvName c fs pfx pa = some nm ∧ env nm ≠ "") := by
  refine ⟨?_, ?_, ?_⟩
  · intro env sch v nm h
    simp [setFieldFromEnv, h]
  · intro env nm s t h ht
    by_cases he : env nm = ""
    · simp only [setFieldFromEnv, if_pos he] at h
      injection h with h
      injection h with h
      exact h ▸ ht
    · simp only [setFieldFromEnv, if_neg he, setFieldValue] at h
      injection h with h
      injection h with h
      exact absurd (h.trans ht) he
  · intro c env fs pfx h
    exact (hasAnyEnvVar_iff_exists_path c env fs pfx).mp h

/-- Witness for C9: an all-empty environment leaves a string leaf untouched
    and instantiates nothing. -/
theorem claim_C9_witness :
    setFieldFromEnv (fun _ => "") (.leaf .str) (.vStr "keep") "NAME" = .ok (.vStr "keep") ∧
    ("" : String) = "" ∧
    (hasAnyEnvVar ⟨"", "", []⟩ (fun n => if n = "HOST" then "x" else "")
        (.fcons "Host" false (.leaf .str) .fnil) "" = true →
      ∃ pa nm, pathEnvName ⟨"", "", []⟩ (.fcons "Host" false (.leaf .str) .fnil) "" pa =
          some nm ∧ (fun n => if n = "HOST" then "x" else "") nm ≠ "") :=
  ⟨claim_C9_empty_equals_unset.1 (fun _ => "") (.leaf .str) (.vStr "keep") "NAME" rfl,
    claim_C9_empty_equals_unset.2.1 (fun _ => "") "NAME" "" ""
      (claim_C9_empty_equals_unset.1 (fun _ => "") (.leaf .str) (.vStr "") "NAME" rfl) rfl,
    claim_C9_empty_equals_unset.2.2 ⟨"", "", []⟩ (fun n => if n = "HOST" then "x" else "")
      (.fcons "Host" false (.leaf .str) .fnil) ""⟩

/-- C2: the field-name-to-environment-variable derivation is a pure function
    (every Lean definition is), and on the listed inputs it returns exactly
    CAMEL_CASE, XML_HTTP_REQUEST, ID, USER_ID, HTTP_SERVER, "", TLS, URL and
    ALLOWED_I_PS — the acronym-then-s quirk included. -/
theorem claim_C2_env_name_derivation :
    getEnvName ⟨"", "", []⟩ "CamelCase" "" = "CAMEL_CASE" ∧
    getEnvName ⟨"", "", []⟩ "XMLHttpRequest" "" = "XML_HTTP_REQUEST" ∧
    getEnvName ⟨"", "", []⟩ "ID" "" = "ID" ∧
    getEnvName ⟨"", "", []⟩ "UserID" "" = "USER_ID" ∧
    getEnvName ⟨"", "", []⟩ "HTTPServer" "" = "HTTP_SERVER" ∧
    getEnvName ⟨"", "", []⟩ "" "" = "" ∧
    getEnvName ⟨"", "", []⟩ "TLS" "" = "TLS" ∧
    getEnvName ⟨"", "", []⟩ "URL" "" = "URL" ∧
    getEnvName ⟨"", "", []⟩ "AllowedIPs" "" = "ALLOWED_I_PS" :=
  ⟨rfl, rfl, rfl, rfl, rfl, rfl, rfl, rfl, rfl⟩

/-- C10: for signed and unsigned integer leaves of any width, an environment
    value that parses as a 64-bit integer never produces a binding error;
    the parsed value is truncated modulo 2^w to the field's width, so "300"
    assigned to an 8-bit signed field yields 44. -/
theorem claim_C10_narrow_int_truncation :
    (∀ (w : Nat) (v : Val) (s : String) (n : Int), parseInt64 s = some n →
      setFieldValue (.leaf (.int w)) v s = .ok (.vInt w (wrapInt w n))) ∧
    (∀ (w : Nat) (v : Val) (s : String) (n : Nat), parseUint64 s = some n →
      setFieldValue (.leaf (.uint w)) v s = .ok (.vUint w (n % 2 ^ w))) ∧
    parseInt64 "300" = some 300 ∧ wrapInt 8 300 = 44 ∧
    setFieldValue (.leaf (.int 8)) (.vInt 8 0) "300" = .ok (.vInt 8 44) := by
  refine ⟨?_, ?_, rfl, rfl, rfl⟩
  · intro w v s n h
    simp [setFieldValue, h]
  · intro w v s n h
    simp [setFieldValue, h]

/-- Witness for C10 at width 8 and input "300". -/
theorem claim_C10_witness :
    parseInt64 "300" = some 300 ∧ parseUint64 "300" = some 300 ∧
    setFieldValue (.leaf (.int 8)) (.vBool false) "300" = .ok (.vInt 8 (wrapInt 8 300)) ∧
    setFieldValue (.leaf (.uint 8)) (.vBool false) "300" = .ok (.vUint 8 (300 % 2 ^ 8)) :=
  ⟨rfl, rfl, claim_C10_narrow_int_truncation.1 8 (.vBool false) "300" 300 rfl,
    claim_C10_narrow_int_truncation.2.1 8 (.vBool false) "300" 300 rfl⟩

/-- C7: coercing a slice leaf from a string splits on commas, trims each
    part, recursively coerces each part to the element type, and yields a
    sequence with one element per comma-separated part; a failing element
    makes the whole coercion fail with an error wrapping that element's
    error and carrying its index. -/
theorem claim_C7_slice_coercion :
    ∀ (esch : Sch) (v : Val) (s : String),
      setFieldValue (.slice esch) v s = setSliceValue esch s ∧
      (∀ out, setSliceValue esch s = .ok out → ∃ xs, out = .vSlice xs) ∧
      (∀ xs, setSliceValue esch s = .ok (.vSlice xs) →
        vlen xs = (splitComma s).length ∧
        ∀ (j : Nat) (part : String), (splitComma s).get? j = some part →
          ∃ w, nthV xs j = some w ∧
            setFieldValue esch (zeroVal esch) (trimSpace part) = .ok w) ∧
      (∀ (k : Nat) (part : String) (e : CoerceErr),
        (splitComma s).get? k = some part →
        setFieldValue esch (zeroVal esch) (trimSpace part) = .error e →
        (∀ (j : Nat) (pj : String), j < k → (splitComma s).get? j = some pj →
          ∃ w, setFieldValue esch (zeroVal esch) (trimSpace pj) = .ok w) →
        setSliceValue esch s = .error (.sliceElem k e)) := by
  intro esch v s
  refine ⟨rfl, ?_, ?_, ?_⟩
  · intro out h
    unfold setSliceValue at h
    cases hg : setSliceGo (fun part => setFieldValue esch (zeroVal esch) part)
        (splitComma s) 0 with
    | error e => rw [hg] at h; cases h
    | ok xs => rw [hg] at h; cases h; exact ⟨xs, rfl⟩
  · intro xs h
    unfold setSliceValue at h
    cases hg : setSliceGo (fun part => setFieldValue esch (zeroVal esch) part)
        (splitComma s) 0 with
    | error e => rw [hg] at h; cases h
    | ok ys =>
      rw [hg] at h
      cases h
      exact setSliceGo_ok _ (splitComma s) 0 xs hg
  · intro k part e hk hfail hok
    have h := setSliceGo_error (fun part => setFieldValue esch (zeroVal esch) part)
      (splitComma s) 0 k part e hk hfail hok
    unfold setSliceValue
    rw [h]
    simp

/-- Witness for C7 on a three-part integer slice and a failing second part. -/
theorem claim_C7_witness :
    setFieldValue (.slice (.leaf (.int 64))) .vSliceNil "1, 2,3" =
      setSliceValue (.leaf (.int 64)) "1, 2,3" ∧
    vlen (.vcons (.vInt 64 1) (.vcons (.vInt 64 2) (.vcons (.vInt 64 3) .vnil))) =
      (splitComma "1, 2,3").length ∧
    setSliceValue (.leaf (.int 64)) "1,x" = .error (.sliceElem 1 (.invalidInt "x")) := by
  refine ⟨(claim_C7_slice_coercion (.leaf (.int 64)) .vSliceNil "1, 2,3").1, ?_, ?_⟩
  · exact ((claim_C7_slice_coercion (.leaf (.int 64)) .vSliceNil "1, 2,3").2.2.1
      (.vcons (.vInt 64 1) (.vcons (.vInt 64 2) (.vcons (.vInt 64 3) .vnil))) rfl).1
  · refine (claim_C7_slice_coercion (.leaf (.int 64)) .vSliceNil "1,x").2.2.2 1 "x"
      (.invalidInt "x") rfl rfl ?_
    intro j pj hj hjp
    interval_cases j
    cases hjp
    exact ⟨.vInt 64 1, rfl⟩

/-- C8: `MustLoad` returns normally exactly when `Load` succeeds, with the
    very value `Load` produced, and on any `Load` failure it panics with a
    message carrying the error's message — it never turns a failure into a
    normal return. -/
theorem claim_C8_mustload_escalation :
    ∀ (c : Config) (rd : ReadResult) (um : String → ValList → Except String ValList)
      (env : Env) (fs : FieldList) (vs : ValList),
      (∀ v, MustLoad c rd um env fs vs = .normal v ↔ Load c rd um env fs vs = .ok v) ∧
      (∀ e, Load c rd um env fs vs = .error e →
        MustLoad c rd um env fs vs = .panicked ("failed to load configuration: " ++ e.msg)) := by
  intro c rd um env fs vs
  constructor
  · intro v
    cases h : Load c rd um env fs vs <;> simp [MustLoad, h]
  · intro e h
    simp [MustLoad, h]

/-- Witness for C8: a failing read panics with the wrapped message, and a
    trivial successful load returns normally. -/
theorem claim_C8_witness :
    MustLoad ⟨"", "cfg.yaml", []⟩ (.readFailed "boom") (fun _ v => .ok v) (fun _ => "")
        .fnil .vnil =
      .panicked "failed to load configuration: failed to load YAML: failed to read YAML file: boom" ∧
    MustLoad ⟨"", "", []⟩ .notExist (fun _ v => .ok v) (fun _ => "") .fnil .vnil =
      .normal .vnil :=
  ⟨(claim_C8_mustload_escalation ⟨"", "cfg.yaml", []⟩ (.readFailed "boom") (fun _ v => .ok v)
      (fun _ => "") .fnil .vnil).2 (.yamlWrap (.readFailed "boom")) rfl,
    ((claim_C8_mustload_escalation ⟨"", "", []⟩ .notExist (fun _ v => .ok v) (fun _ => "")
      .fnil .vnil).1 .vnil).mpr rfl⟩

/-- C6: with a non-empty YAML path, a missing file is skipped silently and
    `Load` proceeds to the environment overlay on the unchanged value, while
    a file whose contents fail to parse makes `Load` fail with the YAML error
    wrapping the underlying unmarshal cause. -/
theorem claim_C6_yaml_missing_vs_corrupt :
    ∀ (c : Config) (rd : ReadResult) (um : String → ValList → Except String ValList)
      (env : Env) (fs : FieldList) (vs : ValList),
      c.yamlFile ≠ "" →
      ((rd = .notExist →
        Load c rd um env fs vs =
          match processStruct c env fs vs "" with
          | .error e => .error (.envWrap e)
          | .ok v2 => .ok v2) ∧
       (∀ d e, rd = .content d → um d vs = .error e →
        Load c rd um env fs vs = .error (.yamlWrap (.unmarshalFailed e)))) := by
  intro c rd um env fs vs hy
  constructor
  · intro hrd
    subst hrd
    simp [Load, yamlStep, loadFromYAML, hy]
  · intro d e hrd hum
    subst hrd
    simp [Load, yamlStep, loadFromYAML, hy, hum]

/-- Witness for C6: a one-string-field record with a missing file loads from
    the environment alone; a corrupt file fails with the wrapped cause. -/
theorem claim_C6_witness :
    Load ⟨"", "cfg.yaml", []⟩ .notExist (fun _ v => .ok v)
        (fun n => if n = "HOST" then "h" else "")
        (.fcons "Host" false (.leaf .str) .fnil) (.vcons (.vStr "") .vnil) =
      .ok (.vcons (.vStr "h") .vnil) ∧
    Load ⟨"", "cfg.yaml", []⟩ (.content "not: [valid") (fun _ _ => .error "yaml: line 1")
        (fun _ => "") (.fcons "Host" false (.leaf .str) .fnil) (.vcons (.vStr "") .vnil) =
      .error (.yamlWrap (.unmarshalFailed "yaml: line 1")) := by
  constructor
  · have h := (claim_C6_yaml_missing_vs_corrupt ⟨"", "cfg.yaml", []⟩ .notExist (fun _ v => .ok v)
      (fun n => if n = "HOST" then "h" else "")
      (.fcons "Host" false (.leaf .str) .fnil) (.vcons (.vStr "") .vnil)
      (by simp)).1 rfl
    rw [h]
    rfl
  · exact (claim_C6_yaml_missing_vs_corrupt ⟨"", "cfg.yaml", []⟩ (.content "not: [valid")
      (fun _ _ => .error "yaml: line 1") (fun _ => "")
      (.fcons "Host" false (.leaf .str) .fnil) (.vcons (.vStr "") .vnil)
      (by simp)).2 "not: [valid" "yaml: line 1" rfl rfl

end Haconfig
